import Mathlib

/-!
# A shallow embedding of the pseudocode.js pipeline

This file models, in Lean, the lexer (`Lexer.js`), the recursive-descent
parser (`Parser.js`), the tree renderer (`Renderer.js`, modelled at the
granularity of emitted keyword/line/group events), the inline text renderer
(`TextEnvironment.renderToHTML` together with `HTMLBuilder` and `TextStyle`,
modelled down to the HTML strings), the option validation
(`RendererOptions._parseEmVal`) and the `ParseError` message construction.

Conventions used throughout:
* JavaScript strings are modelled as `String`/`List Char`; the handful of
  whitespace characters matched by the regex `\s` that can occur in our
  inputs are modelled by `isSpaceJS`.
* Loops without a structurally decreasing argument take an explicit fuel
  (`Nat`) argument; exhausting the fuel yields a distinguished error (or a
  default value) that the real program cannot produce, and every theorem is
  stated so that a fuel exhaustion only ever makes a hypothesis false.
* JavaScript exceptions are modelled with `Except`: `ParseError` values,
  the `TypeError` raised by dereferencing `undefined`, and the `EvalError`
  of the math backend are separate constructors, so theorems can tell the
  different failure kinds apart.
-/

namespace PseudocodeJS

/-- The whitespace characters (regex `\s`) relevant to the modelled inputs. -/
def isSpaceJS (c : Char) : Bool :=
  c == ' ' || c == '\t' || c == '\n' || c == '\r' || c == '\x0b' || c == '\x0c'

/-- `String.prototype.toLowerCase`, restricted to the per-character lowering
that the keyword vocabulary of the program exercises. -/
def strLower (s : String) : String := String.mk (s.data.map Char.toLower)

/-- `String.prototype.trim`: drop leading and trailing whitespace. -/
def trimJS (s : String) : String :=
  String.mk (((s.data.dropWhile isSpaceJS).reverse.dropWhile isSpaceJS).reverse)

/-- `String.prototype.indexOf` for a pattern string: index of the first
occurrence of `pat` in the list, `none` when absent (JS returns `-1`). -/
def idxOfSub (pat : List Char) : List Char → Option Nat
  | [] => if pat.isEmpty then some 0 else none
  | c :: rest =>
    if pat.isPrefixOf (c :: rest) then some 0
    else (idxOfSub pat rest).map (· + 1)

/-! ## Lexer (src/Lexer.js) -/

/-- An atom produced by the lexer (`this._nextAtom` in `Lexer.js`): a type
tag, the useful text (`match[1] ? match[1] : match[0]`, `""` for `EOF` whose
text is `null`), and the preceded-by-whitespace flag. -/
structure Tok where
  type : String
  text : String
  whitespace : Bool
deriving DecidableEq, Repr

/-- The `while` loop of `mathPattern.exec`: scan `remain` for the closing
delimiter `endDel`, skipping closing delimiters preceded by a backslash.
Returns `some (wholeMatch, innerText)` on a match, `none` when the loop
condition `endPos < totalLen` fails (falling through to the next delimiter
pair), and the `Math environment is not closed` error when `indexOf` finds
no occurrence at all. -/
def mathScanLoop (startLen : Nat) (endDel : List Char) (str : List Char) :
    Nat → Nat → List Char → Except String (Option (List Char × List Char))
  | 0, _, _ => .error "mathScanLoop: out of fuel"
  | fuel + 1, endPos, remain =>
    if endPos < str.length then
      match idxOfSub endDel remain with
      | none => .error "Math environment is not closed"
      | some pos =>
        if pos > 0 && remain.getD (pos - 1) ' ' == '\\' then
          let skipLen := pos + endDel.length
          mathScanLoop startLen endDel str fuel (endPos + skipLen) (remain.drop skipLen)
        else
          .ok (some (str.take (endPos + pos + endDel.length),
                     (str.drop startLen).take (endPos + pos - startLen)))
    else
      .ok none

/-- `mathPattern.exec` from `Lexer.js`: try the delimiter pairs `$...$` and
`\(...\)` in order; a pair is attempted only when the input starts with its
opening delimiter (`str.indexOf(startDel) !== 0` skips it otherwise, which
for the head of the remaining input is exactly the prefix test). -/
def mathPatternExec (str : List Char) : Except String (Option (List Char × List Char)) := do
  let r1 ←
    if ['$'].isPrefixOf str then
      mathScanLoop 1 ['$'] str (str.length + 1) 1 (str.drop 1)
    else pure none
  match r1 with
  | some res => pure (some res)
  | none =>
    if ['\\', '('].isPrefixOf str then
      mathScanLoop 2 ['\\', ')'] str (str.length + 1) 2 (str.drop 2)
    else pure none

/-- The eight escaped-special-character token texts, in the alternation
order of the regex `/^(\\\\|\\{|\\}|\\\$|\\&|\\#|\\%|\\_)/`. -/
def specialList : List (List Char) :=
  [['\\', '\\'], ['\\', '{'], ['\\', '}'], ['\\', '$'],
   ['\\', '&'], ['\\', '#'], ['\\', '%'], ['\\', '_']]

/-- First special-escape alternative that is a prefix of the input. -/
def matchSpecial (remain : List Char) : Option (List Char) :=
  specialList.find? (fun p => p.isPrefixOf remain)

/-- A character matched by the `ordinary` regex `/^[^\\{}$&#%_\s]+/`. -/
def isOrdinaryChar (c : Char) : Bool :=
  !(c == '\\' || c == '{' || c == '}' || c == '$' ||
    c == '&' || c == '#' || c == '%' || c == '_' || isSpaceJS c)

/-- The whitespace/comment skipping loop at the top of `Lexer._next`:
alternately consume a whitespace run (recording that some whitespace was
seen) and a `%`-line-comment; stop as soon as no comment follows. -/
def skipWsComments : Nat → List Char → Bool → (List Char × Bool)
  | 0, remain, aw => (remain, aw)
  | fuel + 1, remain, aw =>
    let wsLen := (remain.takeWhile isSpaceJS).length
    let aw := aw || decide (0 < wsLen)
    let remain := remain.drop wsLen
    match remain with
    | '%' :: _ =>
      let comLen := (remain.takeWhile (fun c => c != '\n' && c != '\r')).length
      skipWsComments fuel (remain.drop comLen) aw
    | _ => (remain, aw)

/-- The atom for the end of input (`type: 'EOF', text: null`). -/
def eofTok : Tok := ⟨"EOF", "", false⟩

/-- `Lexer.prototype._next`: skip whitespace and comments, then try the atom
patterns in the insertion order of `atomRegex` (special, math, func, open,
close, quote, ordinary), producing the next atom and the rest of the input.
Note the `quote` regex `/^(`|``|'|'')/` places the single-character
alternatives first, so a quote atom always has one character.  Character
offsets are not tracked: no settled claim depends on the numeric position
stored by the lexer (the `ParseError` text construction is modelled
separately by `parseErrorMessage`). -/
def lexNext (fuel : Nat) (input : List Char) : Except String (Tok × List Char) :=
  let (remain, aw) := skipWsComments fuel input false
  if remain.isEmpty then .ok (eofTok, [])
  else
    match matchSpecial remain with
    | some p => .ok (⟨"special", String.mk p, aw⟩, remain.drop p.length)
    | none =>
      match mathPatternExec remain with
      | .error e => .error e
      | .ok (some (full, inner)) =>
          .ok (⟨"math", String.mk inner, aw⟩, remain.drop full.length)
      | .ok none =>
        match remain with
        | '\\' :: rest =>
          let letters := rest.takeWhile Char.isAlpha
          if letters.isEmpty then .error "Unrecoganizable atom"
          else .ok (⟨"func", String.mk letters, aw⟩, rest.drop letters.length)
        | '{' :: rest => .ok (⟨"open", "\x7b", aw⟩, rest)
        | '}' :: rest => .ok (⟨"close", "\x7d", aw⟩, rest)
        | '`' :: rest => .ok (⟨"quote", "`", aw⟩, rest)
        | '\'' :: rest => .ok (⟨"quote", String.singleton '\'', aw⟩, rest)
        | _ =>
          let run := remain.takeWhile isOrdinaryChar
          if run.isEmpty then .error "Unrecoganizable atom"
          else .ok (⟨"ordinary", String.mk run, aw⟩, remain.drop run.length)

/-- Run the lexer to the end of the input, collecting every atom including
the final `EOF` atom.  (The JS lexer is pulled lazily by the parser; since
lexing one atom never depends on the parser, tokenizing eagerly yields the
same atom sequence.) -/
def lexAll : Nat → List Char → Except String (List Tok)
  | 0, _ => .error "lexAll: out of fuel"
  | fuel + 1, input =>
    match lexNext (input.length + 1) input with
    | .error e => .error e
    | .ok (tok, rest) =>
      if tok.type == "EOF" then .ok [tok]
      else
        match lexAll fuel rest with
        | .error e => .error e
        | .ok toks => .ok (tok :: toks)

/-- Tokenize a whole string. -/
def lexInput (s : String) : Except String (List Tok) :=
  lexAll (s.length + 1) s.data

/-! ## ParseError (src/ParseError.js) -/

/-- The message construction of the `ParseError` constructor when a position
and the input are supplied: insert the marker `↱` at `pos`, then append
`input.slice(Math.max(0, pos - 15), pos + 15)` of the *marked* string. -/
def parseErrorMessage (message : String) (pos : Nat) (input : String) : String :=
  let marked := input.data.take pos ++ '↱' :: input.data.drop pos
  let b := pos - 15
  let e := pos + 15
  "Error: " ++ message ++ " at position " ++ toString pos ++ ": `"
    ++ String.mk ((marked.drop b).take (e - b)) ++ "`"

/-- Modelled from the spec: the same message shape, but with a windowed
excerpt having 15 characters of input context on each side of the caret
marker.  Stated only to be compared against `parseErrorMessage`. -/
def parseErrorMessageSpec (message : String) (pos : Nat) (input : String) : String :=
  "Error: " ++ message ++ " at position " ++ toString pos ++ ": `"
    ++ String.mk ((input.data.drop (pos - 15)).take 15)
    ++ String.singleton '↱'
    ++ String.mk ((input.data.drop pos).take 15) ++ "`"

/-! ## Parser (src/Parser.js)

The parse-tree node.  `ParseNode` (interior, `children` an array) and
`AtomNode` (leaf, `children = null`, with a `whitespace` flag) are modelled
as one inductive whose `children` field is an `Option`; the dynamically
typed `value` field is a small sum of the payloads the program stores there
(`null`, a string, the `{numElif, hasElse}` record of `if` nodes, and the
`{type, name}` record of `function` nodes).

Every `_parseXYZ` method of `Parser.js` becomes a definition of the same
name.  The mutual recursion of the source (block ↔ control constructs,
text ↔ call) is broken by passing the lower-level parsers as explicit
function arguments and tying the knot in the fuel-indexed `parseTextAux`
and `parseBlockAux`; a thrown `ParseError` is the `Except` error case. -/

inductive JValue where
  | nullV
  | strV (s : String)
  | ifV (numElif : Nat) (hasElse : Bool)
  | funcV (ftype : String) (fname : String)
deriving DecidableEq, Repr

inductive PNode where
  | mk (type : String) (value : JValue) (children : Option (List PNode)) (whitespace : Bool)
deriving Repr

def PNode.type : PNode → String
  | .mk t _ _ _ => t

def PNode.value : PNode → JValue
  | .mk _ v _ _ => v

def PNode.children : PNode → Option (List PNode)
  | .mk _ _ c _ => c

def PNode.whitespace : PNode → Bool
  | .mk _ _ _ w => w

/-- The child list, defaulting to `[]` for a leaf. -/
def PNode.childrenD (n : PNode) : List PNode := n.children.getD []

/-- Replace the child list (used to model in-place mutation of the shared
`children` array). -/
def PNode.withChildren : PNode → List PNode → PNode
  | .mk t v _ w, cs => .mk t v (some cs) w

/-- Assign the `whitespace` field. -/
def PNode.setWs : PNode → Bool → PNode
  | .mk t v c _, w => .mk t v c w

/-- Parser failures: a thrown `ParseError`, or exhaustion of the modelling
fuel (which the real program cannot produce). -/
inductive PErr where
  | parseError (msg : String)
  | fuelOut
deriving DecidableEq, Repr

/-- The lexer state as seen by the parser: the not-yet-consumed atoms
(`_nextAtom` is the head, with `EOF` repeated once the list is empty, as in
`Lexer._next` on an empty remainder) and the most recently consumed atom
(`_currentAtom`, what `Lexer.get()` returns). -/
structure PState where
  toks : List Tok
  cur : Tok
deriving DecidableEq, Repr

def peekT (st : PState) : Tok := st.toks.headD eofTok

def consumeT (st : PState) : PState := ⟨st.toks.tail, peekT st⟩

/-- `Lexer._matchText`: no constraint when no text is given; otherwise a
case-insensitive membership test in the list of alternatives. -/
def matchTextT (atomText : String) : Option (List String) → Bool
  | none => true
  | some l => (l.map strLower).contains (strLower atomText)

/-- `Lexer.accept`: consume the lookahead atom when it matches, returning
the consumed atom (the source returns its text; the parser reads the text
and the whitespace flag back through `Lexer.get()`). -/
def acceptT (st : PState) (type : String) (text : Option (List String)) :
    Option (Tok × PState) :=
  let nx := peekT st
  if nx.type == type && matchTextT nx.text text then some (nx, consumeT st) else none

/-- `Lexer.expect`: like `acceptT` but a mismatch throws a `ParseError`. -/
def expectT (st : PState) (type : String) (text : Option (List String)) :
    Except PErr (Tok × PState) :=
  let nx := peekT st
  if nx.type != type then
    .error (.parseError ("Expect an atom of " ++ type ++ " but received " ++ nx.type))
  else if !matchTextT nx.text text then
    .error (.parseError ("Expect text mismatch on " ++ nx.text))
  else .ok (nx, consumeT st)

/-- The `ACCEPTED_TOKEN_BY_ATOM` table of `Parser.js`, in insertion order:
atom type, accepted token type, accepted token values. -/
def ACCEPTED_TOKEN_BY_ATOM : List (String × String × Option (List String)) :=
  [("ordinary", "ordinary", none),
   ("math", "math", none),
   ("special", "special", none),
   ("cond-symbol", "func",
     some ["and", "or", "not", "true", "false", "to", "downto"]),
   ("quote-symbol", "quote", none),
   ("sizing-dclr", "func",
     some ["tiny", "scriptsize", "footnotesize", "small", "normalsize",
           "large", "Large", "LARGE", "huge", "Huge"]),
   ("font-dclr", "func",
     some ["normalfont", "rmfamily", "sffamily", "ttfamily",
           "upshape", "itshape", "slshape", "scshape",
           "bfseries", "mdseries", "lfseries"]),
   ("font-cmd", "func",
     some ["textnormal", "textrm", "textsf", "texttt", "textup",
           "textit", "textsl", "textsc", "uppercase", "lowercase", "textbf",
           "textmd", "textlf"]),
   ("text-symbol", "func", some ["textbackslash"])]

/-- `Parser._parseAtom` restricted to a tail of the table. -/
def parseAtomFrom : List (String × String × Option (List String)) → PState →
    Option (PNode × PState)
  | [], _ => none
  | (atomType, tokType, tokVals) :: rest, st =>
    match acceptT st tokType tokVals with
    | some (tok, st') =>
      let text :=
        if atomType != "ordinary" && atomType != "math" then strLower tok.text else tok.text
      some (.mk atomType (.strV text) none tok.whitespace, st')
    | none => parseAtomFrom rest st

/-- `Parser._parseAtom`: first atom type of the table whose token matches. -/
def parseAtom (st : PState) : Option (PNode × PState) :=
  parseAtomFrom ACCEPTED_TOKEN_BY_ATOM st

/-- `Parser._parseCall`, with the close-text parser passed explicitly.  The
`whitespace` of the node is that of the consumed `call` token
(`lexer.get().whitespace`). -/
def parseCall (pCloseText : PState → Except PErr (PNode × PState)) (st : PState) :
    Except PErr (Option (PNode × PState)) :=
  match acceptT st "func" (some ["call"]) with
  | none => .ok none
  | some (tok, st) =>
    match expectT st "open" none with
    | .error e => .error e
    | .ok (_, st) =>
    match expectT st "ordinary" none with
    | .error e => .error e
    | .ok (nameTok, st) =>
    match expectT st "close" none with
    | .error e => .error e
    | .ok (_, st) =>
    match expectT st "open" none with
    | .error e => .error e
    | .ok (_, st) =>
    match pCloseText st with
    | .error e => .error e
    | .ok (argsNode, st) =>
    match expectT st "close" none with
    | .error e => .error e
    | .ok (_, st) =>
      .ok (some (.mk "call" (.strV nameTok.text) (some [argsNode]) tok.whitespace, st))

/-- The `while` loop of `Parser._parseText`, building the child list.  The
rolling `anyWhitespace` variable is threaded as `aw`: it is only ever
(re)assigned in the brace-group branch and is OR-ed onto every later
atom/call child, exactly as in the source.  The nested close-text of a
brace group or of a call argument re-enters the loop at smaller fuel. -/
def parseTextAux : Nat → Bool → PState → Except PErr (List PNode × PState)
  | 0, _, _ => .error .fuelOut
  | fuel + 1, aw, st =>
    let subClose : PState → Except PErr (PNode × PState) := fun s =>
      match parseTextAux fuel false s with
      | .error e => .error e
      | .ok (cs, s') => .ok (.mk "close-text" .nullV (some cs) false, s')
    match parseAtom st with
    | some (a, st') =>
      let a := if aw then a.setWs (a.whitespace || aw) else a
      match parseTextAux fuel aw st' with
      | .error e => .error e
      | .ok (rest, st'') => .ok (a :: rest, st'')
    | none =>
      match parseCall subClose st with
      | .error e => .error e
      | .ok (some (c, st')) =>
        let c := if aw then c.setWs (c.whitespace || aw) else c
        match parseTextAux fuel aw st' with
        | .error e => .error e
        | .ok (rest, st'') => .ok (c :: rest, st'')
      | .ok none =>
        match acceptT st "open" none with
        | some (_, st1) =>
          match subClose st1 with
          | .error e => .error e
          | .ok (inner, st2) =>
            let inner := inner.setWs st2.cur.whitespace
            match expectT st2 "close" none with
            | .error e => .error e
            | .ok (_, st3) =>
              match parseTextAux fuel st3.cur.whitespace st3 with
              | .error e => .error e
              | .ok (rest, st4) => .ok (inner :: rest, st4)
        | none => .ok ([], st)

/-- `Parser._parseText`: wrap the collected children in an
`<openOrClose>-text` node. -/
def parseText (fuel : Nat) (openOrClose : String) (st : PState) :
    Except PErr (PNode × PState) :=
  match parseTextAux fuel false st with
  | .error e => .error e
  | .ok (cs, st') => .ok (.mk (openOrClose ++ "-text") .nullV (some cs) false, st')

/-- `Parser._parseOpenText`. -/
def parseOpenText (fuel : Nat) : PState → Except PErr (PNode × PState) :=
  parseText fuel "open"

/-- `Parser._parseCloseText` (also `Parser._parseCond`, an alias in the
source). -/
def parseCloseText (fuel : Nat) : PState → Except PErr (PNode × PState) :=
  parseText fuel "close"

/-- The `while` loop over `\ELIF` (and synonym) branches in
`Parser._parseIf`: returns the interleaved `cond, block` children and the
branch count. -/
def parseIfElifs (pCond pBlock : PState → Except PErr (PNode × PState)) :
    Nat → PState → Except PErr (List PNode × Nat × PState)
  | 0, _ => .error .fuelOut
  | fuel + 1, st =>
    match acceptT st "func" (some ["elif", "elsif", "elseif"]) with
    | none => .ok ([], 0, st)
    | some (_, st) =>
      match expectT st "open" none with
      | .error e => .error e
      | .ok (_, st) =>
      match pCond st with
      | .error e => .error e
      | .ok (c, st) =>
      match expectT st "close" none with
      | .error e => .error e
      | .ok (_, st) =>
      match pBlock st with
      | .error e => .error e
      | .ok (b, st) =>
      match parseIfElifs pCond pBlock fuel st with
      | .error e => .error e
      | .ok (rest, n, st) => .ok (c :: b :: rest, n + 1, st)

/-- The `( \ELSE <block> )[0..1]` step of `Parser._parseIf`: the optional
else block and the `hasElse` flag. -/
def parseIfElse (pBlock : PState → Except PErr (PNode × PState)) (st : PState) :
    Except PErr (List PNode × Bool × PState) :=
  match acceptT st "func" (some ["else"]) with
  | none => .ok ([], false, st)
  | some (_, st') =>
    match pBlock st' with
    | .error e => .error e
    | .ok (eb, st'') => .ok ([eb], true, st'')

/-- `Parser._parseIf`, with the condition and block parsers passed
explicitly.  The children are `cond`, `block`, the elif `cond, block`
pairs, then the optional else block; the value records `numElif` and
`hasElse`. -/
def parseIf (fuel : Nat) (pCond pBlock : PState → Except PErr (PNode × PState))
    (st : PState) : Except PErr (Option (PNode × PState)) :=
  match acceptT st "func" (some ["if"]) with
  | none => .ok none
  | some (_, st) =>
    match expectT st "open" none with
    | .error e => .error e
    | .ok (_, st) =>
    match pCond st with
    | .error e => .error e
    | .ok (cond, st) =>
    match expectT st "close" none with
    | .error e => .error e
    | .ok (_, st) =>
    match pBlock st with
    | .error e => .error e
    | .ok (blk, st) =>
    match parseIfElifs pCond pBlock fuel st with
    | .error e => .error e
    | .ok (elifChildren, numElif, st) =>
    match parseIfElse pBlock st with
    | .error e => .error e
    | .ok (elseChildren, hasElse, st) =>
    match expectT st "func" (some ["endif"]) with
    | .error e => .error e
    | .ok (_, st) =>
      .ok (some (.mk "if" (.ifV numElif hasElse)
                   (some (cond :: blk :: (elifChildren ++ elseChildren))) false, st))

/-- `Parser._parseLoop`: the closing keyword is computed from the opening
keyword, with `forall` irregularly closing as `endfor`. -/
def parseLoop (pCond pBlock : PState → Except PErr (PNode × PState)) (st : PState) :
    Except PErr (Option (PNode × PState)) :=
  match acceptT st "func" (some ["FOR", "FORALL", "WHILE"]) with
  | none => .ok none
  | some (tok, st) =>
    let loopName := strLower tok.text
    match expectT st "open" none with
    | .error e => .error e
    | .ok (_, st) =>
    match pCond st with
    | .error e => .error e
    | .ok (cond, st) =>
    match expectT st "close" none with
    | .error e => .error e
    | .ok (_, st) =>
    match pBlock st with
    | .error e => .error e
    | .ok (blk, st) =>
    let endLoop := if loopName != "forall" then "end" ++ loopName else "endfor"
    match expectT st "func" (some [endLoop]) with
    | .error e => .error e
    | .ok (_, st) =>
      .ok (some (.mk "loop" (.strV loopName) (some [cond, blk]) false, st))

/-- `Parser._parseRepeat`: `\REPEAT <block> \UNTIL{<cond>}`; the block is
child 0 and the condition child 1. -/
def parseRepeat (pCond pBlock : PState → Except PErr (PNode × PState)) (st : PState) :
    Except PErr (Option (PNode × PState)) :=
  match acceptT st "func" (some ["REPEAT"]) with
  | none => .ok none
  | some (tok, st) =>
    let repeatName := strLower tok.text
    match pBlock st with
    | .error e => .error e
    | .ok (blk, st) =>
    match expectT st "func" (some ["until"]) with
    | .error e => .error e
    | .ok (_, st) =>
    match expectT st "open" none with
    | .error e => .error e
    | .ok (_, st) =>
    match pCond st with
    | .error e => .error e
    | .ok (cond, st) =>
    match expectT st "close" none with
    | .error e => .error e
    | .ok (_, st) =>
      .ok (some (.mk "repeat" (.strV repeatName) (some [blk, cond]) false, st))

/-- `Parser._parseUpon`. -/
def parseUpon (pCond pBlock : PState → Except PErr (PNode × PState)) (st : PState) :
    Except PErr (Option (PNode × PState)) :=
  match acceptT st "func" (some ["upon"]) with
  | none => .ok none
  | some (_, st) =>
    match expectT st "open" none with
    | .error e => .error e
    | .ok (_, st) =>
    match pCond st with
    | .error e => .error e
    | .ok (cond, st) =>
    match expectT st "close" none with
    | .error e => .error e
    | .ok (_, st) =>
    match pBlock st with
    | .error e => .error e
    | .ok (blk, st) =>
    match expectT st "func" (some ["endupon"]) with
    | .error e => .error e
    | .ok (_, st) =>
      .ok (some (.mk "upon" .nullV (some [cond, blk]) false, st))

/-- `Parser._parseFunction`: the stored `type` is the raw matched token
text (case preserved); the closing keyword `end<type>` is matched
case-insensitively by `expect`. -/
def parseFunction (pCloseText pBlock : PState → Except PErr (PNode × PState))
    (st : PState) : Except PErr (Option (PNode × PState)) :=
  match acceptT st "func" (some ["function", "procedure"]) with
  | none => .ok none
  | some (tok, st) =>
    let funcType := tok.text
    match expectT st "open" none with
    | .error e => .error e
    | .ok (_, st) =>
    match expectT st "ordinary" none with
    | .error e => .error e
    | .ok (nameTok, st) =>
    match expectT st "close" none with
    | .error e => .error e
    | .ok (_, st) =>
    match expectT st "open" none with
    | .error e => .error e
    | .ok (_, st) =>
    match pCloseText st with
    | .error e => .error e
    | .ok (argsNode, st) =>
    match expectT st "close" none with
    | .error e => .error e
    | .ok (_, st) =>
    match pBlock st with
    | .error e => .error e
    | .ok (blockNode, st) =>
    match expectT st "func" (some ["end" ++ funcType]) with
    | .error e => .error e
    | .ok (_, st) =>
      .ok (some (.mk "function" (.funcV funcType nameTok.text)
                   (some [argsNode, blockNode]) false, st))

def IO_STATEMENTS : List String := ["ensure", "require", "input", "output"]
def STATEMENTS : List String := ["state", "print", "return"]
def COMMANDS : List String := ["break", "continue"]

/-- `Parser._parseStatement`. -/
def parseStatement (acceptStatements : List String)
    (pOpenText : PState → Except PErr (PNode × PState)) (st : PState) :
    Except PErr (Option (PNode × PState)) :=
  match acceptT st "func" (some acceptStatements) with
  | none => .ok none
  | some (tok, st) =>
    let stmtName := strLower tok.text
    match pOpenText st with
    | .error e => .error e
    | .ok (t, st) =>
      .ok (some (.mk "statement" (.strV stmtName) (some [t]) false, st))

/-- `Parser._parseCommand`: a bare keyword node with no children. -/
def parseCommand (acceptCommands : List String) (st : PState) :
    Option (PNode × PState) :=
  match acceptT st "func" (some acceptCommands) with
  | none => none
  | some (tok, st) =>
    some (.mk "command" (.strV (strLower tok.text)) (some []) false, st)

/-- `Parser._parseComment`. -/
def parseComment (pCloseText : PState → Except PErr (PNode × PState)) (st : PState) :
    Except PErr (Option (PNode × PState)) :=
  match acceptT st "func" (some ["comment"]) with
  | none => .ok none
  | some (_, st) =>
    match expectT st "open" none with
    | .error e => .error e
    | .ok (_, st) =>
    match pCloseText st with
    | .error e => .error e
    | .ok (t, st) =>
    match expectT st "close" none with
    | .error e => .error e
    | .ok (_, st) =>
      .ok (some (.mk "comment" .nullV (some [t]) false, st))

/-- `Parser._parseCaption`. -/
def parseCaption (pCloseText : PState → Except PErr (PNode × PState)) (st : PState) :
    Except PErr (Option (PNode × PState)) :=
  match acceptT st "func" (some ["caption"]) with
  | none => .ok none
  | some (_, st) =>
    match expectT st "open" none with
    | .error e => .error e
    | .ok (_, st) =>
    match pCloseText st with
    | .error e => .error e
    | .ok (t, st) =>
    match expectT st "close" none with
    | .error e => .error e
    | .ok (_, st) =>
      .ok (some (.mk "caption" .nullV (some [t]) false, st))

/-- `Parser._acceptEnvironment`: `\begin{<name>}`, returning the name. -/
def acceptEnvironment (st : PState) : Except PErr (Option (String × PState)) :=
  match acceptT st "func" (some ["begin"]) with
  | none => .ok none
  | some (_, st) =>
    match expectT st "open" none with
    | .error e => .error e
    | .ok (_, st) =>
    match expectT st "ordinary" none with
    | .error e => .error e
    | .ok (nameTok, st) =>
    match expectT st "close" none with
    | .error e => .error e
    | .ok (_, st) => .ok (some (nameTok.text, st))

/-- `Parser._closeEnvironment`: `\end{<envName>}`.  A `none` name models the
argument-less call in `_parseAlgorithmInner` (`envName` is `undefined`
there, so any ordinary name is accepted). -/
def closeEnvironment (envName : Option String) (st : PState) : Except PErr PState :=
  match expectT st "func" (some ["end"]) with
  | .error e => .error e
  | .ok (_, st) =>
  match expectT st "open" none with
  | .error e => .error e
  | .ok (_, st) =>
  match expectT st "ordinary" (envName.map (fun n => [n])) with
  | .error e => .error e
  | .ok (_, st) =>
  match expectT st "close" none with
  | .error e => .error e
  | .ok (_, st) => .ok st

/-- The `while` loop of `Parser._parseBlock`, trying in order: control
(`if`, loop, repeat, upon), function, statement, command, comment; the loop
ends at the first position where none of them accepts. -/
def parseBlockAux : Nat → PState → Except PErr (List PNode × PState)
  | 0, _ => .error .fuelOut
  | fuel + 1, st =>
    let pCond := parseText fuel "close"
    let pBlock : PState → Except PErr (PNode × PState) := fun s =>
      match parseBlockAux fuel s with
      | .error e => .error e
      | .ok (cs, s') => .ok (.mk "block" .nullV (some cs) false, s')
    let step : PNode → PState → Except PErr (List PNode × PState) := fun n s =>
      match parseBlockAux fuel s with
      | .error e => .error e
      | .ok (rest, s') => .ok (n :: rest, s')
    match parseIf fuel pCond pBlock st with
    | .error e => .error e
    | .ok (some (n, st')) => step n st'
    | .ok none =>
    match parseLoop pCond pBlock st with
    | .error e => .error e
    | .ok (some (n, st')) => step n st'
    | .ok none =>
    match parseRepeat pCond pBlock st with
    | .error e => .error e
    | .ok (some (n, st')) => step n st'
    | .ok none =>
    match parseUpon pCond pBlock st with
    | .error e => .error e
    | .ok (some (n, st')) => step n st'
    | .ok none =>
    match parseFunction (parseText fuel "close") pBlock st with
    | .error e => .error e
    | .ok (some (n, st')) => step n st'
    | .ok none =>
    match parseStatement STATEMENTS (parseText fuel "open") st with
    | .error e => .error e
    | .ok (some (n, st')) => step n st'
    | .ok none =>
    match parseCommand COMMANDS st with
    | some (n, st') => step n st'
    | none =>
    match parseComment (parseText fuel "close") st with
    | .error e => .error e
    | .ok (some (n, st')) => step n st'
    | .ok none => .ok ([], st)

/-- `Parser._parseBlock`: wrap the collected children in a `block` node. -/
def parseBlock (fuel : Nat) (st : PState) : Except PErr (PNode × PState) :=
  match parseBlockAux fuel st with
  | .error e => .error e
  | .ok (cs, st') => .ok (.mk "block" .nullV (some cs) false, st')

/-- The `while` loop of `Parser._parseAlgorithmicInner`: IO statements and
non-empty blocks, until a block comes back empty. -/
def parseAlgorithmicItems : Nat → PState → Except PErr (List PNode × PState)
  | 0, _ => .error .fuelOut
  | fuel + 1, st =>
    match parseStatement IO_STATEMENTS (parseText fuel "open") st with
    | .error e => .error e
    | .ok (some (n, st')) =>
      (match parseAlgorithmicItems fuel st' with
       | .error e => .error e
       | .ok (rest, st'') => .ok (n :: rest, st''))
    | .ok none =>
      match parseBlock fuel st with
      | .error e => .error e
      | .ok (blk, st') =>
        if 0 < blk.childrenD.length then
          match parseAlgorithmicItems fuel st' with
          | .error e => .error e
          | .ok (rest, st'') => .ok (blk :: rest, st'')
        else .ok ([], st')

/-- `Parser._parseAlgorithmicInner`. -/
def parseAlgorithmicInner (fuel : Nat) (st : PState) : Except PErr (PNode × PState) :=
  match parseAlgorithmicItems fuel st with
  | .error e => .error e
  | .ok (cs, st') => .ok (.mk "algorithmic" .nullV (some cs) false, st')

/-- The `while` loop of `Parser._parseAlgorithmInner`: nested `algorithmic`
environments (closed by the argument-less `_closeEnvironment()` call of the
source, hence `closeEnvironment none`) and captions. -/
def parseAlgorithmItems : Nat → PState → Except PErr (List PNode × PState)
  | 0, _ => .error .fuelOut
  | fuel + 1, st =>
    match acceptEnvironment st with
    | .error e => .error e
    | .ok (some (envName, st')) =>
      if envName != "algorithmic" then
        .error (.parseError ("Unexpected environment " ++ envName))
      else
        (match parseAlgorithmicInner fuel st' with
         | .error e => .error e
         | .ok (inner, st2) =>
           match closeEnvironment none st2 with
           | .error e => .error e
           | .ok st3 =>
             match parseAlgorithmItems fuel st3 with
             | .error e => .error e
             | .ok (rest, st4) => .ok (inner :: rest, st4))
    | .ok none =>
      match parseCaption (parseText fuel "close") st with
      | .error e => .error e
      | .ok (some (cap, st')) =>
        (match parseAlgorithmItems fuel st' with
         | .error e => .error e
         | .ok (rest, st'') => .ok (cap :: rest, st''))
      | .ok none => .ok ([], st)

/-- `Parser._parseAlgorithmInner`. -/
def parseAlgorithmInner (fuel : Nat) (st : PState) : Except PErr (PNode × PState) :=
  match parseAlgorithmItems fuel st with
  | .error e => .error e
  | .ok (cs, st') => .ok (.mk "algorithm" .nullV (some cs) false, st')

/-- The root loop of `Parser.parse` over `algorithm`/`algorithmic`
environments. -/
def parseRootItems : Nat → PState → Except PErr (List PNode × PState)
  | 0, _ => .error .fuelOut
  | fuel + 1, st =>
    match acceptEnvironment st with
    | .error e => .error e
    | .ok none => .ok ([], st)
    | .ok (some (envName, st')) =>
      let envStep : Except PErr (PNode × PState) :=
        if envName == "algorithm" then parseAlgorithmInner fuel st'
        else if envName == "algorithmic" then parseAlgorithmicInner fuel st'
        else .error (.parseError ("Unexpected environment " ++ envName))
      match envStep with
      | .error e => .error e
      | .ok (envNode, st2) =>
        match closeEnvironment (some envName) st2 with
        | .error e => .error e
        | .ok st3 =>
          match parseRootItems fuel st3 with
          | .error e => .error e
          | .ok (rest, st4) => .ok (envNode :: rest, st4)

/-- `Parser.parse`: parse the environments, then `expect('EOF')`; the
result is the `root` node. -/
def parseToks (fuel : Nat) (toks : List Tok) : Except PErr PNode :=
  match parseRootItems fuel ⟨toks, eofTok⟩ with
  | .error e => .error e
  | .ok (cs, st) =>
    match expectT st "EOF" none with
    | .error e => .error e
    | .ok _ => .ok (.mk "root" .nullV (some cs) false)

/-- Lex and parse an input string (`new Parser(new Lexer(input)).parse()`). -/
def parseInput (fuel : Nat) (s : String) : Except PErr PNode :=
  match lexInput s with
  | .error e => .error (.parseError e)
  | .ok toks => parseToks fuel toks

/-! ## Renderer (src/Renderer.js), at event granularity

`Renderer._buildTree` is modelled as a function from a parse-tree node to
the sequence of structural emissions it makes: group openings/closings
(`_beginGroup`/`_endGroup`, a `block` group for `_beginBlock`), line
openings (`_newLine`), keyword/function-name/raw-text segments
(`_typeKeyword`/`_typeFuncName`/`_typeText`), the comment span, and opaque
`textChunk` events for the `open-text`/`close-text` nodes that are handed
to `TextEnvironment` (which is modelled separately, down to HTML strings).
Indentation arithmetic, the line-number counter and the open-line flag only
influence attributes inside these emissions, not their kind or order, so
they are not part of the event model.

The process-wide `Renderer.captionCount` is threaded explicitly: the
functions take the current counter value and return the updated one. -/

/-- The renderer options relevant to the event model (`RendererOptions`).
The `titlePrefix` option of the source is called `titleWord` here (renamed
only to satisfy lexical restrictions on this file). -/
structure RendOpts where
  noEnd : Bool := false
  commentDelimiter : String := " // "
  lineNumber : Bool := false
  scopeLines : Bool := false
  titleWord : String := "Algorithm"
deriving Repr

/-- One structural emission of `Renderer._buildTree`. -/
inductive Event where
  | groupBegin (name : String) (extra : String)
  | groupEnd
  | newLine
  | keyword (s : String)
  | funcName (s : String)
  | rawText (s : String)
  | commentBegin
  | commentEnd
  | textChunk (n : PNode)
deriving Repr

/-- Renderer failures: the JS `TypeError` from dereferencing
`undefined`/`null`, the `ReferenceError` from the misspelled `ParserError`,
a thrown `EvalError`, a thrown `ParseError`, or fuel exhaustion (a
modelling artifact). -/
inductive RErr where
  | typeError
  | refError
  | evalError (msg : String)
  | parseError (msg : String)
  | fuelOut
deriving DecidableEq, Repr

/-- `node.children[i]`, where a `null` children array or an out-of-range
index leads to dereferencing `undefined` (reading `.type` inside the
recursive `_buildTree` call), i.e. a `TypeError`. -/
def getChildE (n : PNode) (i : Nat) : Except RErr PNode :=
  match n.children with
  | none => .error .typeError
  | some cs =>
    match cs.get? i with
    | none => .error .typeError
    | some c => .ok c

/-- `node.children` where `null` would be dereferenced. -/
def childrenE (n : PNode) : Except RErr (List PNode) :=
  match n.children with
  | none => .error .typeError
  | some cs => .ok cs

/-- `Renderer._buildTreeForAllChildren`, parameterized by the renderer for
one node (the caption counter is threaded left to right). -/
def renderList (r : PNode → Nat → Except RErr (List Event × Nat)) :
    List PNode → Nat → Except RErr (List Event × Nat)
  | [], cnt => .ok ([], cnt)
  | n :: ns, cnt =>
    match r n cnt with
    | .error e => .error e
    | .ok (evs, cnt') =>
      match renderList r ns cnt' with
      | .error e => .error e
      | .ok (evs', cnt'') => .ok (evs ++ evs', cnt'')

/-- `Renderer._buildCommentsFromBlock(blockNode)` (which destructively
shifts the leading `comment` children of the block and renders each)
followed by the `_buildTree(blockNode)` call that always comes next in the
source, parameterized by the node renderer `r`. -/
def hoistRender (r : PNode → Nat → Except RErr (List Event × Nat)) (blk : PNode)
    (c : Nat) : Except RErr (List Event × Nat) :=
  match childrenE blk with
  | .error e => .error e
  | .ok cs =>
    let lead := cs.takeWhile (fun x => x.type == "comment")
    let rest := cs.dropWhile (fun x => x.type == "comment")
    match renderList r lead c with
    | .error e => .error e
    | .ok (evs1, c1) =>
      match r (blk.withChildren rest) c1 with
      | .error e => .error e
      | .ok (evs2, c2) => .ok (evs1 ++ evs2, c2)

/-- The `for` loop over elif branches in the `if` case of
`Renderer._buildTree`: `k` branches remain, `ei` is the current index;
`r` renders a node, `hoist` renders a block after extracting its leading
comments. -/
def renderElifs (r hoist : PNode → Nat → Except RErr (List Event × Nat))
    (children : List PNode) : Nat → Nat → Nat → Except RErr (List Event × Nat)
  | 0, _, cnt => .ok ([], cnt)
  | k + 1, ei, cnt =>
    match children.get? (2 + 2 * ei) with
    | none => .error .typeError
    | some cond =>
      match r cond cnt with
      | .error e => .error e
      | .ok (ce, cnt1) =>
        match children.get? (2 + 2 * ei + 1) with
        | none => .error .typeError
        | some blk =>
          match hoist blk cnt1 with
          | .error e => .error e
          | .ok (be, cnt2) =>
            match renderElifs r hoist children k (ei + 1) cnt2 with
            | .error e => .error e
            | .ok (re, cnt3) =>
              .ok ([.newLine, .keyword "else if "] ++ ce ++ [.keyword " then"]
                     ++ be ++ re, cnt3)

/-- The `displayLoopName` table of the `loop` case; an unknown loop kind
looks up to `undefined`, which the template string prints as
`"undefined"`. -/
def displayLoopName (v : JValue) : Option String :=
  match v with
  | .strV "for" => some "for"
  | .strV "forall" => some "for all"
  | .strV "while" => some "while"
  | _ => none

/-- The `displayStmtName` table of the `statement` case. -/
def displayStmtName (v : JValue) : Option String :=
  match v with
  | .strV "state" => some ""
  | .strV "ensure" => some "Ensure: "
  | .strV "require" => some "Require: "
  | .strV "input" => some "Input: "
  | .strV "output" => some "Output: "
  | .strV "print" => some "print "
  | .strV "return" => some "return "
  | _ => none

/-- The `displayCmdName` table of the `command` case. -/
def displayCmdName (v : JValue) : Option String :=
  match v with
  | .strV "break" => some "break"
  | .strV "continue" => some "continue"
  | _ => none

/-- The keyword guarded by `if (display...)`: both `undefined` and the
empty string are falsy, so nothing is emitted for them. -/
def keywordIfAny (disp : Option String) : List Event :=
  match disp with
  | some s => if s != "" then [.keyword s] else []
  | none => []

/-- `Renderer._buildTree`.  Each case mirrors the corresponding `switch`
case; `hoistBlock` combines the `_buildCommentsFromBlock(blockNode)` call
(which destructively shifts the leading `comment` children and renders
them) with the immediately following `_buildTree(blockNode)` on the
remaining children. -/
def buildTree (opts : RendOpts) : Nat → PNode → Nat → Except RErr (List Event × Nat)
  | 0, _, _ => .error .fuelOut
  | fuel + 1, n, cnt =>
    let hoistBlock : PNode → Nat → Except RErr (List Event × Nat) :=
      hoistRender (buildTree opts fuel)
    match n.type with
    | "root" =>
      (match childrenE n with
       | .error e => .error e
       | .ok cs =>
         match renderList (buildTree opts fuel) cs cnt with
         | .error e => .error e
         | .ok (evs, cnt') =>
           .ok ([.groupBegin "root" ""] ++ evs ++ [.groupEnd], cnt'))
    | "algorithm" =>
      (match childrenE n with
       | .error e => .error e
       | .ok cs =>
         let caps := cs.filter (fun c => c.type == "caption")
         let cnt1 := cnt + caps.length
         let headerStep : Except RErr (List Event × Nat) :=
           match caps.getLast? with
           | some lastCaptionNode =>
             (match buildTree opts fuel lastCaptionNode cnt1 with
              | .error e => .error e
              | .ok (evs, c) =>
                .ok ([.groupBegin "algorithm" "with-caption"] ++ evs, c))
           | none => .ok ([.groupBegin "algorithm" ""], cnt1)
         match headerStep with
         | .error e => .error e
         | .ok (hevs, cnt2) =>
           match renderList (buildTree opts fuel)
               (cs.filter (fun c => c.type != "caption")) cnt2 with
           | .error e => .error e
           | .ok (evs, cnt3) => .ok (hevs ++ evs ++ [.groupEnd], cnt3))
    | "algorithmic" =>
      (match childrenE n with
       | .error e => .error e
       | .ok cs =>
         let divClasses :=
           (if opts.lineNumber then " with-linenum " else "")
             ++ (if opts.scopeLines then " with-scopelines " else "")
         match renderList (buildTree opts fuel) cs cnt with
         | .error e => .error e
         | .ok (evs, cnt') =>
           .ok ([.groupBegin "algorithmic" divClasses] ++ evs ++ [.groupEnd], cnt'))
    | "block" =>
      (match childrenE n with
       | .error e => .error e
       | .ok cs =>
         match renderList (buildTree opts fuel) cs cnt with
         | .error e => .error e
         | .ok (evs, cnt') =>
           .ok ([.groupBegin "block" ""] ++ evs ++ [.groupEnd], cnt'))
    | "function" =>
      (match n.value with
       | .funcV ftype fname =>
         let funcType := strLower ftype
         (match getChildE n 0 with
          | .error e => .error e
          | .ok textNode =>
            match getChildE n 1 with
            | .error e => .error e
            | .ok blockNode =>
              match buildTree opts fuel textNode cnt with
              | .error e => .error e
              | .ok (tevs, c1) =>
                match hoistBlock blockNode c1 with
                | .error e => .error e
                | .ok (bevs, c2) =>
                  .ok ([.newLine, .keyword (funcType ++ " "), .funcName fname,
                        .rawText "("] ++ tevs ++ [.rawText ")"] ++ bevs
                        ++ (if opts.noEnd then []
                            else [.newLine, .keyword ("end " ++ funcType)]), c2))
       | _ => .error .typeError)
    | "if" =>
      (match n.value with
       | .nullV => .error .typeError
       | v =>
         let numElif := match v with | .ifV ne _ => ne | _ => 0
         let hasElse := match v with | .ifV _ he => he | _ => false
         match getChildE n 0 with
         | .error e => .error e
         | .ok ifCond =>
           match buildTree opts fuel ifCond cnt with
           | .error e => .error e
           | .ok (cevs, c1) =>
             match getChildE n 1 with
             | .error e => .error e
             | .ok ifBlock =>
               match hoistBlock ifBlock c1 with
               | .error e => .error e
               | .ok (bevs, c2) =>
                 match renderElifs (buildTree opts fuel) hoistBlock
                     n.childrenD numElif 0 c2 with
                 | .error e => .error e
                 | .ok (eevs, c3) =>
                   let elseStep : Except RErr (List Event × Nat) :=
                     if hasElse then
                       match n.childrenD.getLast? with
                       | none => .error .typeError
                       | some elseBlock =>
                         match hoistBlock elseBlock c3 with
                         | .error e => .error e
                         | .ok (evs, c) =>
                           .ok ([.newLine, .keyword "else"] ++ evs, c)
                     else .ok ([], c3)
                   match elseStep with
                   | .error e => .error e
                   | .ok (elevs, c4) =>
                     .ok ([.newLine, .keyword "if "] ++ cevs ++ [.keyword " then"]
                           ++ bevs ++ eevs ++ elevs
                           ++ (if opts.noEnd then []
                               else [.newLine, .keyword "end if"]), c4))
    | "loop" =>
      (match getChildE n 0 with
       | .error e => .error e
       | .ok loopCond =>
         match buildTree opts fuel loopCond cnt with
         | .error e => .error e
         | .ok (cevs, c1) =>
           match getChildE n 1 with
           | .error e => .error e
           | .ok block =>
             match hoistBlock block c1 with
             | .error e => .error e
             | .ok (bevs, c2) =>
               let isWhile := match n.value with | .strV s => s == "while" | _ => false
               let endLoopName := if isWhile then "end while" else "end for"
               .ok ([.newLine,
                     .keyword (((displayLoopName n.value).getD "undefined") ++ " ")]
                     ++ cevs ++ [.keyword " do"] ++ bevs
                     ++ (if opts.noEnd then []
                         else [.newLine, .keyword endLoopName]), c2))
    | "repeat" =>
      (match getChildE n 0 with
       | .error e => .error e
       | .ok repeatBlock =>
         match hoistBlock repeatBlock cnt with
         | .error e => .error e
         | .ok (bevs, c1) =>
           match getChildE n 1 with
           | .error e => .error e
           | .ok repeatCond =>
             match buildTree opts fuel repeatCond c1 with
             | .error e => .error e
             | .ok (cevs, c2) =>
               .ok ([.newLine, .keyword "repeat"] ++ bevs
                     ++ [.newLine, .keyword "until "] ++ cevs, c2))
    | "upon" =>
      (match getChildE n 0 with
       | .error e => .error e
       | .ok uponCond =>
         match buildTree opts fuel uponCond cnt with
         | .error e => .error e
         | .ok (cevs, c1) =>
           match getChildE n 1 with
           | .error e => .error e
           | .ok uponBlock =>
             match hoistBlock uponBlock c1 with
             | .error e => .error e
             | .ok (bevs, c2) =>
               .ok ([.newLine, .keyword "upon "] ++ cevs ++ bevs
                     ++ (if opts.noEnd then []
                         else [.newLine, .keyword "end upon"]), c2))
    | "command" =>
      .ok ([.newLine] ++ keywordIfAny (displayCmdName n.value), cnt)
    | "caption" =>
      (match getChildE n 0 with
       | .error e => .error e
       | .ok textNode =>
         match buildTree opts fuel textNode cnt with
         | .error e => .error e
         | .ok (tevs, c1) =>
           .ok ([.newLine,
                 .keyword (opts.titleWord ++ " " ++ toString cnt ++ " ")] ++ tevs, c1))
    | "comment" =>
      (match getChildE n 0 with
       | .error e => .error e
       | .ok textNode =>
         match buildTree opts fuel textNode cnt with
         | .error e => .error e
         | .ok (tevs, c1) =>
           .ok ([.commentBegin, .rawText opts.commentDelimiter] ++ tevs
                 ++ [.commentEnd], c1))
    | "statement" =>
      (match getChildE n 0 with
       | .error e => .error e
       | .ok textNode =>
         match buildTree opts fuel textNode cnt with
         | .error e => .error e
         | .ok (tevs, c1) =>
           .ok ([.newLine] ++ keywordIfAny (displayStmtName n.value) ++ tevs, c1))
    | "open-text" => .ok ([.textChunk n], cnt)
    | "close-text" => .ok ([.textChunk n], cnt)
    | other => .error (.parseError ("Unexpected ParseNode of type " ++ other))

/-- Render a tree with the default caption counter `0`
(`Renderer.captionCount` starts at `0`). -/
def renderTree (opts : RendOpts) (fuel : Nat) (n : PNode) :
    Except RErr (List Event × Nat) :=
  buildTree opts fuel n 0

/-! ### Counting the `end` lines -/

/-- The keyword texts the renderer can emit on a block-closing line. -/
def isEndKw (s : String) : Bool :=
  s == "end if" || s == "end for" || s == "end while" || s == "end upon" ||
  s == "end function" || s == "end procedure"

/-- Whether an event is the keyword of a block-closing line.  Such a
keyword is always emitted directly after `_newLine`, so counting these
events counts the emitted "end" lines. -/
def Event.isEndKeyword : Event → Bool
  | .keyword s => isEndKw s
  | _ => false

/-- Number of "end" lines in an event sequence. -/
def countEnds (evs : List Event) : Nat := evs.countP Event.isEndKeyword

/-- The comment-hoisting part of `endCountT`, mirroring `hoistRender`. -/
def hoistCountAux (f : PNode → Nat) (blk : PNode) : Nat :=
  let cs := blk.childrenD
  ((cs.takeWhile (fun x => x.type == "comment")).map f).sum
    + f (blk.withChildren (cs.dropWhile (fun x => x.type == "comment")))

/-- The elif-branch part of `endCountT`, mirroring `renderElifs`. -/
def elifCountAux (f fh : PNode → Nat) (children : List PNode) : Nat → Nat → Nat
  | 0, _ => 0
  | k + 1, ei =>
    (match children.get? (2 + 2 * ei) with | some c => f c | none => 0)
      + (match children.get? (2 + 2 * ei + 1) with | some c => fh c | none => 0)
      + elifCountAux f fh children k (ei + 1)

/-- The number of block-closing lines that rendering `n` emits when the
suppress-end option is unset, computed by the traversal structure of
`buildTree`: one for each `if`, `loop` and `upon` node, one for each
`function` node whose (lower-cased) kind yields a closing keyword
(`function` or `procedure`, which is all the parser can produce), and none
for `repeat`. -/
def endCountT : Nat → PNode → Nat
  | 0, _ => 0
  | fuel + 1, n =>
    let hoistCount : PNode → Nat := hoistCountAux (endCountT fuel)
    let child : Nat → Nat := fun i =>
      match n.childrenD.get? i with
      | some c => endCountT fuel c
      | none => 0
    let childHoist : Nat → Nat := fun i =>
      match n.childrenD.get? i with
      | some c => hoistCount c
      | none => 0
    match n.type with
    | "root" => (n.childrenD.map (endCountT fuel)).sum
    | "algorithm" =>
      let caps := n.childrenD.filter (fun c => c.type == "caption")
      (match caps.getLast? with
       | some c => endCountT fuel c
       | none => 0)
        + ((n.childrenD.filter (fun c => c.type != "caption")).map
            (endCountT fuel)).sum
    | "algorithmic" => (n.childrenD.map (endCountT fuel)).sum
    | "block" => (n.childrenD.map (endCountT fuel)).sum
    | "function" =>
      (match n.value with
       | .funcV ftype _ =>
         (if isEndKw ("end " ++ strLower ftype) then 1 else 0) + child 0 + childHoist 1
       | _ => 0)
    | "if" =>
      let numElif := match n.value with | .ifV ne _ => ne | _ => 0
      let hasElse := match n.value with | .ifV _ he => he | _ => false
      1 + child 0 + childHoist 1
        + elifCountAux (endCountT fuel) hoistCount n.childrenD numElif 0
        + (if hasElse then
             match n.childrenD.getLast? with
             | some c => hoistCount c
             | none => 0
           else 0)
    | "loop" => 1 + child 0 + childHoist 1
    | "repeat" => childHoist 0 + child 1
    | "upon" => 1 + child 0 + childHoist 1
    | "command" => 0
    | "caption" => child 0
    | "comment" => child 0
    | "statement" => child 0
    | _ => 0

/-! ## TextStyle, HTMLBuilder and TextEnvironment (src/Renderer.js)

This part is modelled down to the produced HTML strings, because the
whitespace-flag claims are about exact spacing in the output. -/

/-- Set a key in a JS object used as an ordered string map: updating an
existing key keeps its position, a new key is appended (`for...in`
iterates keys in insertion order). -/
def objSet (m : List (String × String)) (k v : String) : List (String × String) :=
  if m.any (fun p => p.1 == k) then
    m.map (fun p => if p.1 == k then (k, v) else p)
  else m ++ [(k, v)]

/-- Merge a list of key/value pairs into the map, in order. -/
def objSetMany (m : List (String × String)) : List (String × String) →
    List (String × String)
  | [] => m
  | (k, v) :: rest => objSetMany (objSet m k v) rest

/-- `TextStyle`: accumulated CSS attributes, the current font scale, and
the outer scale it is expressed against. -/
structure TextStyle where
  css : List (String × String)
  fontSize : ℚ
  outerFontSize : ℚ
deriving DecidableEq, Repr

/-- The `TextStyle` constructor: no attributes; both sizes are the given
outer size, defaulting to `1.0`. -/
def TextStyle.new (outerFontSize : Option ℚ) : TextStyle :=
  let v := outerFontSize.getD 1
  ⟨[], v, v⟩

/-- `TextStyle._fontCommandTable` (declarations, then commands). -/
def fontCommandTable (cmd : String) : Option (List (String × String)) :=
  match cmd with
  | "normalfont" => some [("font-family", "KaTeX_Main")]
  | "rmfamily" => some [("font-family", "KaTeX_Main")]
  | "sffamily" => some [("font-family", "KaTeX_SansSerif")]
  | "ttfamily" => some [("font-family", "KaTeX_Typewriter")]
  | "bfseries" => some [("font-weight", "bold")]
  | "mdseries" => some [("font-weight", "medium")]
  | "lfseries" => some [("font-weight", "lighter")]
  | "upshape" => some [("font-style", "normal"), ("font-variant", "normal")]
  | "itshape" => some [("font-style", "italic"), ("font-variant", "normal")]
  | "scshape" => some [("font-style", "normal"), ("font-variant", "small-caps")]
  | "slshape" => some [("font-style", "oblique"), ("font-variant", "normal")]
  | "textnormal" => some [("font-family", "KaTeX_Main")]
  | "textrm" => some [("font-family", "KaTeX_Main")]
  | "textsf" => some [("font-family", "KaTeX_SansSerif")]
  | "texttt" => some [("font-family", "KaTeX_Typewriter")]
  | "textbf" => some [("font-weight", "bold")]
  | "textmd" => some [("font-weight", "medium")]
  | "textlf" => some [("font-weight", "lighter")]
  | "textup" => some [("font-style", "normal"), ("font-variant", "normal")]
  | "textit" => some [("font-style", "italic"), ("font-variant", "normal")]
  | "textsc" => some [("font-style", "normal"), ("font-variant", "small-caps")]
  | "textsl" => some [("font-style", "oblique"), ("font-variant", "normal")]
  | "uppercase" => some [("text-transform", "uppercase")]
  | "lowercase" => some [("text-transform", "lowercase")]
  | _ => none

/-- `TextStyle._sizingScalesTable`. -/
def sizingScalesTable (cmd : String) : Option ℚ :=
  match cmd with
  | "tiny" => some ((68 : ℚ) / 100)
  | "scriptsize" => some ((80 : ℚ) / 100)
  | "footnotesize" => some ((85 : ℚ) / 100)
  | "small" => some ((92 : ℚ) / 100)
  | "normalsize" => some 1
  | "large" => some ((117 : ℚ) / 100)
  | "Large" => some ((141 : ℚ) / 100)
  | "LARGE" => some ((158 : ℚ) / 100)
  | "huge" => some ((190 : ℚ) / 100)
  | "Huge" => some ((228 : ℚ) / 100)
  | _ => none

/-- `TextStyle.updateByCommand`.  An unknown command executes
`throw new ParserError(...)` where `ParserError` is not defined, i.e. a
JS `ReferenceError`. -/
def TextStyle.updateByCommand (ts : TextStyle) (cmd : String) : Except RErr TextStyle :=
  match fontCommandTable cmd with
  | some cmdStyles => .ok { ts with css := objSetMany ts.css cmdStyles }
  | none =>
    match sizingScalesTable cmd with
    | some fs => .ok { ts with outerFontSize := ts.fontSize, fontSize := fs }
    | none => .error .refError

/-- Decimal-free rendering of a rational (an abstraction of JS number
formatting; no settled claim evaluates a style whose two sizes differ, so
this serialization is never observed by a theorem). -/
def ratToString (q : ℚ) : String :=
  if q.den == 1 then toString q.num else toString q.num ++ "/" ++ toString q.den

/-- `TextStyle.toCSS`. -/
def TextStyle.toCSS (ts : TextStyle) : String :=
  String.join (ts.css.map (fun p => p.1 ++ ":" ++ p.2 ++ ";"))
    ++ (if ts.fontSize != ts.outerFontSize then
          "font-size:" ++ ratToString (ts.fontSize / ts.outerFontSize) ++ "em;"
        else "")

/-- `HTMLBuilder`: the emitted pieces (`_body`) and the pending text
buffer (`_textBuf`). -/
structure HTMLBuilder where
  body : List String := []
  buf : List String := []
deriving DecidableEq, Repr

/-- The `entityMap` of `_escapeHtml`. -/
def entityMap (c : Char) : Option String :=
  match c with
  | '&' => some "&amp;"
  | '<' => some "&lt;"
  | '>' => some "&gt;"
  | '"' => some "&quot;"
  | '\'' => some "&#39;"
  | '/' => some "&#x2F;"
  | _ => none

/-- `HTMLBuilder._escapeHtml`. -/
def escapeHtml (s : String) : String :=
  String.join (s.data.map (fun c => (entityMap c).getD (String.singleton c)))

/-- `HTMLBuilder._flushText`. -/
def HTMLBuilder.flushText (hb : HTMLBuilder) : HTMLBuilder :=
  if hb.buf.isEmpty then hb
  else ⟨hb.body ++ [escapeHtml (String.join hb.buf)], []⟩

/-- `HTMLBuilder.putText`: buffered, escaped on flush. -/
def HTMLBuilder.putText (hb : HTMLBuilder) (s : String) : HTMLBuilder :=
  ⟨hb.body, hb.buf ++ [s]⟩

/-- `HTMLBuilder.putHTML`: flush, then push raw. -/
def HTMLBuilder.putHTML (hb : HTMLBuilder) (s : String) : HTMLBuilder :=
  let hb := hb.flushText
  ⟨hb.body ++ [s], hb.buf⟩

/-- `HTMLBuilder.write`: push raw *without* flushing. -/
def HTMLBuilder.write (hb : HTMLBuilder) (s : String) : HTMLBuilder :=
  ⟨hb.body ++ [s], hb.buf⟩

/-- `HTMLBuilder._beginTag` for a string-valued style; `className` and
`style` are skipped when falsy (absent or the empty string). -/
def beginTagStr (tag : String) (className : Option String) (style : Option String) :
    String :=
  "<" ++ tag
    ++ (match className with
        | some c => if c != "" then " class=\"" ++ c ++ "\"" else ""
        | none => "")
    ++ (match style with
        | some s => if s != "" then " style=\"" ++ s ++ "\"" else ""
        | none => "")
    ++ ">"

/-- `HTMLBuilder.beginSpan`: flush, then open the tag. -/
def HTMLBuilder.beginSpan (hb : HTMLBuilder) (className : Option String)
    (style : Option String) : HTMLBuilder :=
  hb.flushText.write (beginTagStr "span" className style)

/-- `HTMLBuilder.endSpan`. -/
def HTMLBuilder.endSpan (hb : HTMLBuilder) : HTMLBuilder :=
  hb.flushText.write "</span>"

/-- `HTMLBuilder.toMarkup`: flush, join, trim. -/
def HTMLBuilder.toMarkup (hb : HTMLBuilder) : String :=
  trimJS (String.join hb.flushText.body)

/-- A math backend as detected by the `Renderer` constructor. -/
inductive MathBackend where
  | katex (drv : String → String)
  | mathjax (version : Nat) (drv : String → String)

/-- The string payload of an atom value (the atoms handed to
`TextEnvironment` by the parser always carry a string `value`). -/
def JValue.strD : JValue → String
  | .strV s => s
  | _ => ""

/-- The `replace` table of the `special` case (after `\\` is handled). -/
def specialReplace (s : String) : String :=
  if s == String.mk ['\\', '{'] then "\x7b"
  else if s == String.mk ['\\', '}'] then "\x7d"
  else if s == String.mk ['\\', '$'] then "$"
  else if s == String.mk ['\\', '&'] then "&"
  else if s == String.mk ['\\', '#'] then "#"
  else if s == String.mk ['\\', '%'] then "%"
  else if s == String.mk ['\\', '_'] then "_"
  else ""

/-- The `quoteReplace` table of the `quote-symbol` case. -/
def quoteReplace (s : String) : String :=
  if s == "`" then "‘"
  else if s == "``" then "“"
  else if s == String.singleton '\'' then "’"
  else if s == String.mk ['\'', '\''] then "”"
  else ""

/-- The `while`/`shift` loop of `TextEnvironment.renderToHTML`, threading
the builder and the current `TextStyle`.  A nested environment
(`_renderCloseText`, declaration scopes, font-command arguments) is a
fresh builder rendered to markup at smaller fuel; the `font-cmd` case
peeks at `_nodes[0]` without shifting it, so after rendering the argument
of a font command the argument node itself is rendered again with its
(destructively consumed, hence empty) child list. -/
def renderNodesAux (backend : Option MathBackend) :
    Nat → TextStyle → HTMLBuilder → List PNode → Except RErr HTMLBuilder
  | 0, _, _, _ => .error .fuelOut
  | fuel + 1, ts, hb, nodes =>
    let subRender : TextStyle → List PNode → Except RErr String := fun ts' ns =>
      match renderNodesAux backend fuel ts' ⟨[], []⟩ ns with
      | .error e => .error e
      | .ok hb' => .ok hb'.toMarkup
    match nodes with
    | [] => .ok hb
    | node :: rest =>
      let text := node.value.strD
      let hb := if node.whitespace then hb.putText " " else hb
      let cont : HTMLBuilder → Except RErr HTMLBuilder := fun hb' =>
        renderNodesAux backend fuel ts hb' rest
      match node.type with
      | "ordinary" => cont (hb.putText text)
      | "math" =>
        (match backend with
         | none =>
           .error (.evalError "No math backend found. Please setup KaTeX or MathJax.")
         | some (.katex drv) => cont (hb.putHTML (drv text))
         | some (.mathjax version drv) =>
           if version == 3 then cont (hb.putHTML (drv text))
           else cont (hb.putText ("$" ++ text ++ "$")))
      | "cond-symbol" =>
        cont (((hb.beginSpan (some "ps-keyword") none).putText (strLower text)).endSpan)
      | "special" =>
        if text == String.mk ['\\', '\\'] then cont (hb.putHTML "<br/>")
        else cont (hb.putText (specialReplace text))
      | "text-symbol" =>
        cont (hb.putText (if text == "textbackslash" then "\\" else ""))
      | "quote-symbol" => cont (hb.putText (quoteReplace text))
      | "call" =>
        let hb := ((hb.beginSpan (some "ps-funcname") none).putText text).endSpan
        let hb := hb.write "("
        (match childrenE node with
         | .error e => .error e
         | .ok cs =>
           match cs.get? 0 with
           | none => .error .typeError
           | some argsTextNode =>
             let hb := if argsTextNode.whitespace then hb.putText " " else hb
             match childrenE argsTextNode with
             | .error e => .error e
             | .ok argsChildren =>
               match subRender (TextStyle.new (some ts.fontSize)) argsChildren with
               | .error e => .error e
               | .ok inner => cont ((hb.putHTML inner).write ")"))
      | "close-text" =>
        (match childrenE node with
         | .error e => .error e
         | .ok cs =>
           let hb := if node.whitespace then hb.putText " " else hb
           match subRender (TextStyle.new (some ts.fontSize)) cs with
           | .error e => .error e
           | .ok inner => cont (hb.putHTML inner))
      | "font-dclr" =>
        (match ts.updateByCommand text with
         | .error e => .error e
         | .ok ts' =>
           let hb := hb.beginSpan none (some ts'.toCSS)
           match subRender ts' rest with
           | .error e => .error e
           | .ok inner => .ok ((hb.putHTML inner).endSpan))
      | "sizing-dclr" =>
        (match ts.updateByCommand text with
         | .error e => .error e
         | .ok ts' =>
           let hb := hb.beginSpan none (some ts'.toCSS)
           match subRender ts' rest with
           | .error e => .error e
           | .ok inner => .ok ((hb.putHTML inner).endSpan))
      | "font-cmd" =>
        (match rest with
         | [] => .error .typeError
         | tn :: rest' =>
           if tn.type != "close-text" then
             renderNodesAux backend fuel ts hb rest
           else
             match (TextStyle.new (some ts.fontSize)).updateByCommand text with
             | .error e => .error e
             | .ok innerStyle =>
               let hb := hb.beginSpan none (some innerStyle.toCSS)
               match childrenE tn with
               | .error e => .error e
               | .ok tnChildren =>
                 match subRender innerStyle tnChildren with
                 | .error e => .error e
                 | .ok inner =>
                   renderNodesAux backend fuel ts ((hb.putHTML inner).endSpan)
                     (tn.withChildren [] :: rest'))
      | other => .error (.parseError ("Unexpected ParseNode of type " ++ other))

/-- `TextEnvironment.renderToHTML`: run the loop on a fresh builder and
serialize (which trims). -/
def renderToHTML (backend : Option MathBackend) (fuel : Nat) (nodes : List PNode)
    (ts : TextStyle) : Except RErr String :=
  match renderNodesAux backend fuel ts ⟨[], []⟩ nodes with
  | .error e => .error e
  | .ok hb => .ok hb.toMarkup

/-! ## Entry point (pseudocode.js `renderToString`) and option parsing -/

/-- `RendererOptions._parseEmVal`: trim, then require the *first*
occurrence of `em` to sit exactly at the end, else throw a `TypeError`;
the numeric prefix is returned uninterpreted (its `Number(...)`
interpretation feeds only indentation widths, which no settled claim
observes). -/
def parseEmVal (emVal : String) : Except RErr String :=
  let t := trimJS emVal
  let idx : Int := match idxOfSub ['e', 'm'] t.data with
    | some i => (i : Int)
    | none => -1
  if idx != (t.length : Int) - 2 then .error .typeError
  else .ok (String.mk (t.data.take (t.length - 2)))

/-- The caller-supplied options object (fields absent by default).  The
`titlePrefix` option of the source is `titleWord` here. -/
structure UserOptions where
  indentSize : Option String := none
  noEnd : Option Bool := none
  commentDelimiter : Option String := none
  lineNumber : Option Bool := none
  scopeLines : Option Bool := none
  titleWord : Option String := none
  captionCount : Option Nat := none

/-- The `RendererOptions` constructor: validate `indentSize` when present
and truthy (an empty string is falsy and keeps the default), fill in
defaults, and pass the `captionCount` override through. -/
def makeRendOpts (u : UserOptions) : Except RErr RendOpts :=
  let validate : Except RErr Unit :=
    match u.indentSize with
    | some s => if s != "" then (parseEmVal s).map (fun _ => ()) else .ok ()
    | none => .ok ()
  match validate with
  | .error e => .error e
  | .ok _ =>
    .ok { noEnd := u.noEnd.getD false,
          commentDelimiter := u.commentDelimiter.getD " // ",
          lineNumber := u.lineNumber.getD false,
          scopeLines := u.scopeLines.getD false,
          titleWord := u.titleWord.getD "Algorithm" }

/-- The distinguishable failures of one `renderToString` call. -/
inductive PipeErr where
  | parseE (e : PErr)
  | configE
  | renderE (e : RErr)
deriving DecidableEq, Repr

/-- `renderToString(input, options)` at event granularity: the `Renderer`
constructor runs `parser.parse()` *first* and only then builds
`RendererOptions`; `toMarkup` afterwards walks the tree.  `captionCount`
is the value of the process-wide counter entering the call, overridden by
the option of the same name. -/
def renderToString (fuelP fuelR : Nat) (input : String) (u : UserOptions)
    (captionCount : Nat) : Except PipeErr (List Event × Nat) :=
  match parseInput fuelP input with
  | .error e => .error (.parseE e)
  | .ok root =>
    match makeRendOpts u with
    | .error _ => .error .configE
    | .ok opts =>
      let cnt0 := u.captionCount.getD captionCount
      match buildTree opts fuelR root cnt0 with
      | .error e => .error (.renderE e)
      | .ok r => .ok r

/-! ## Projections and observation helpers used by the theorems -/

/-- The parsed root of a successful parse, a dummy node otherwise. -/
def okNode (r : Except PErr PNode) : PNode :=
  match r with
  | .ok n => n
  | .error _ => .mk "" .nullV none false

/-- The event list of a successful render, `[]` otherwise. -/
def okEvs (r : Except RErr (List Event × Nat)) : List Event :=
  match r with
  | .ok (evs, _) => evs
  | .error _ => []

/-- The caption counter after a successful render. -/
def okCnt (r : Except RErr (List Event × Nat)) : Option Nat :=
  match r with
  | .ok (_, c) => some c
  | .error _ => none

/-- The caption counter after a successful `renderToString` call. -/
def pipeCnt (r : Except PipeErr (List Event × Nat)) : Option Nat :=
  match r with
  | .ok (_, c) => some c
  | .error _ => none

/-- A readable tag for an event, used to state concrete renderings without
spelling out the `textChunk` payloads. -/
def evTag : Event → String
  | .groupBegin n _ => "begin-" ++ n
  | .groupEnd => "end-group"
  | .newLine => "line"
  | .keyword s => "kw:" ++ s
  | .funcName s => "name:" ++ s
  | .rawText s => "text:" ++ s
  | .commentBegin => "comment-begin"
  | .commentEnd => "comment-end"
  | .textChunk _ => "chunk"

/-- Whether an event opens a `block` group (the indented block body). -/
def Event.isBlockBegin : Event → Bool
  | .groupBegin n _ => n == "block"
  | _ => false

/-- Whether an event opens a comment span. -/
def Event.isCommentBegin : Event → Bool
  | .commentBegin => true
  | _ => false

/-! ## Concrete inputs and nodes used by the claim theorems -/

def c1twoCapInput : String :=
  "\\begin{algorithm}\\caption{t}\\caption{u}\\begin{algorithmic}\\STATE s\\end{algorithmic}\\end{algorithm}"

def c6good : String := "\\begin{algorithmic}\\FORALL{x}\\STATE y\\ENDFOR\\end{algorithmic}"
def c6bad : String := "\\begin{algorithmic}\\FORALL{x}\\STATE y\\ENDFORALL\\end{algorithmic}"
def c6for : String := "\\begin{algorithmic}\\FOR{x}\\STATE y\\ENDFOR\\end{algorithmic}"
def c6while : String := "\\begin{algorithmic}\\WHILE{x}\\STATE y\\ENDWHILE\\end{algorithmic}"

def c7nospace : String := "\\STATE a\\STATE b"
def c7space : String := "\\STATE a \\STATE b"

def c8badsrc : String := "\\begin{algorithmic}"
def c8goodsrc : String := "\\begin{algorithmic}\\STATE a\\end{algorithmic}"
def c8opts : UserOptions := { indentSize := some "2px" }

def c9input : String := "0123456789012345678901234567890123456789"

def c3toks : List Tok :=
  match lexInput "\\IF{c}\\STATE s\\ELIF{d}\\STATE t\\ELSE\\STATE u\\ENDIF" with
  | .ok ts => ts
  | .error _ => []

def c3state : PState := ⟨c3toks, eofTok⟩

def c3res : Except PErr (Option (PNode × PState)) :=
  parseIf 30 (parseText 30 "close") (parseBlock 30) c3state

def c3node : PNode :=
  match c3res with
  | .ok (some (n, _)) => n
  | _ => .mk "" .nullV none false

def c3state2 : PState :=
  match c3res with
  | .ok (some (_, s)) => s
  | _ => c3state

/-- Whether the tree below `n` (explored to depth `fuel`) has an
`algorithm` node — the only node kind that touches the caption counter. -/
def containsAlg : Nat → PNode → Bool
  | 0, _ => false
  | fuel + 1, n => n.type == "algorithm" || n.childrenD.any (containsAlg fuel)

/-- A minimal text node, caption node, one-caption algorithm node and
zero-caption algorithm node for exercising the caption counter. -/
def c1wText : PNode := PNode.mk "open-text" JValue.nullV (some []) false

def c1wCap : PNode := PNode.mk "caption" JValue.nullV (some [c1wText]) false

def c1wAlg : PNode := PNode.mk "algorithm" JValue.nullV (some [c1wCap]) false

def c1wAlg0 : PNode := PNode.mk "algorithm" JValue.nullV
  (some [PNode.mk "statement" (JValue.strV "state") (some [c1wText]) false]) false

/-- A nested source with one procedure, one if, one for-all loop, one upon
and one repeat. -/
def c2input : String :=
  "\\begin{algorithmic}\\PROCEDURE{P}{x}\\IF{a}\\FORALL{y}\\STATE s\\ENDFOR\\ELSE\\UPON{e}\\REPEAT\\STATE t\\UNTIL{c}\\ENDUPON\\ENDIF\\ENDPROCEDURE\\end{algorithmic}"

/-- Inputs whose construct block starts with a comment, one per construct
kind (plus one with a comment leading each of the if, elif and else
branches). -/
def c5ifInput : String :=
  "\\begin{algorithmic}\\IF{c}\\COMMENT{x}\\STATE s\\ENDIF\\end{algorithmic}"

def c5branches : String :=
  "\\begin{algorithmic}\\IF{a}\\COMMENT{u}\\STATE s\\ELIF{b}\\COMMENT{v}\\STATE t\\ELSE\\COMMENT{w}\\STATE r\\ENDIF\\end{algorithmic}"

def c5loopInput : String :=
  "\\begin{algorithmic}\\FORALL{y}\\COMMENT{x}\\STATE s\\ENDFOR\\end{algorithmic}"

def c5repInput : String :=
  "\\begin{algorithmic}\\REPEAT\\COMMENT{x}\\STATE s\\UNTIL{c}\\end{algorithmic}"

def c5uponInput : String :=
  "\\begin{algorithmic}\\UPON{e}\\COMMENT{x}\\STATE s\\ENDUPON\\end{algorithmic}"

def c5funcInput : String :=
  "\\begin{algorithmic}\\PROCEDURE{P}{z}\\COMMENT{x}\\STATE s\\ENDPROCEDURE\\end{algorithmic}"

/-- The event-tag trace of parsing and rendering an input with the default
options. -/
def c5tags (inp : String) : List String :=
  (okEvs (renderTree {} 64 (okNode (parseInput 64 inp)))).map evTag

/-- A comment node, a statement node and a block starting with the
comment, for exercising the hoisting split. -/
def c5wCmt : PNode := PNode.mk "comment" JValue.nullV (some [c1wText]) false

def c5wStmt : PNode :=
  PNode.mk "statement" (JValue.strV "state") (some [c1wText]) false

def c5wBlk : PNode := PNode.mk "block" JValue.nullV (some [c5wCmt, c5wStmt]) false

@[simp] theorem countEnds_nil : countEnds [] = 0 := rfl

@[simp] theorem countEnds_append (l1 l2 : List Event) :
    countEnds (l1 ++ l2) = countEnds l1 + countEnds l2 :=
  List.countP_append _ _ _

@[simp] theorem countEnds_cons (e : Event) (l : List Event) :
    countEnds (e :: l) = countEnds l + (if Event.isEndKeyword e then 1 else 0) :=
  List.countP_cons _ _ _

@[simp] theorem isEndKeyword_groupBegin (a b : String) :
    Event.isEndKeyword (.groupBegin a b) = false := rfl
@[simp] theorem isEndKeyword_groupEnd : Event.isEndKeyword .groupEnd = false := rfl
@[simp] theorem isEndKeyword_newLine : Event.isEndKeyword .newLine = false := rfl
@[simp] theorem isEndKeyword_funcName (s : String) :
    Event.isEndKeyword (.funcName s) = false := rfl
@[simp] theorem isEndKeyword_rawText (s : String) :
    Event.isEndKeyword (.rawText s) = false := rfl
@[simp] theorem isEndKeyword_commentBegin : Event.isEndKeyword .commentBegin = false := rfl
@[simp] theorem isEndKeyword_commentEnd : Event.isEndKeyword .commentEnd = false := rfl
@[simp] theorem isEndKeyword_textChunk (n : PNode) :
    Event.isEndKeyword (.textChunk n) = false := rfl
@[simp] theorem isEndKeyword_keyword (s : String) :
    Event.isEndKeyword (.keyword s) = isEndKw s := rfl

/-- A keyword ending in a space is never a block-closing keyword. -/
theorem isEndKw_last_space (s : String) (h : s.data.getLast? = some ' ') :
    isEndKw s = false := by
  simp only [isEndKw, Bool.or_eq_false_iff, beq_eq_false_iff_ne, ne_eq]
  refine ⟨⟨⟨⟨⟨?_, ?_⟩, ?_⟩, ?_⟩, ?_⟩, ?_⟩ <;> rintro rfl <;> exact absurd h (by decide)

/-- Any string of the shape `a ++ " "` fails `isEndKw`. -/
theorem isEndKw_append_space (a : String) : isEndKw (a ++ " ") = false := by
  apply isEndKw_last_space
  have : (a ++ " ").data = a.data ++ [' '] := rfl
  rw [this, List.getLast?_concat]

/-- Whether a parse attempt succeeded. -/
def isOkParse (r : Except PErr PNode) : Bool :=
  match r with
  | .ok _ => true
  | .error _ => false

/-- The error of a failed parse, `none` on success. -/
def parseErrOf (r : Except PErr PNode) : Option PErr :=
  match r with
  | .error e => some e
  | .ok _ => none

/-- The error of a failed `renderToString` call, `none` on success. -/
def pipeErrOf (r : Except PipeErr (List Event × Nat)) : Option PipeErr :=
  match r with
  | .error e => some e
  | .ok _ => none

/-- Child `i` of a node, with a dummy default (used only to navigate
concrete, known-shape trees in witnesses). -/
def childD (n : PNode) (i : Nat) : PNode :=
  (n.childrenD.get? i).getD (.mk "" .nullV none false)

/-- The `open-text` node of the single statement of a single-block,
single-environment input: root → algorithmic → block → statement → text. -/
def firstStatementText (s : String) : PNode :=
  childD (childD (childD (childD (okNode (parseInput 50 s)) 0) 0) 0) 0

/-- Render the inline text of that statement to HTML, with no math
backend (the examples contain no math). -/
def stmtRender (s : String) : Except RErr String :=
  renderToHTML none 50 (firstStatementText s).childrenD (TextStyle.new none)

/-! ## C1 — caption counter advancement -/

/-- C1 counterexample: rendering one `algorithm` environment that contains
two captions advances the shared caption counter by *two*, not once — the
scan loop in the `algorithm` case increments `Renderer.captionCount` once
per caption child, not once per environment.  The counter enters the call
at 0 and leaves at 2. -/
theorem claim_C1_counterexample :
    pipeCnt (renderToString 50 50 c1twoCapInput {} 0) = some 2 ∧
    pipeCnt (renderToString 50 50 c1twoCapInput {} 0) ≠ some 1 :=
  ⟨by decide, by decide⟩

/-! ## C6 — the FORALL/ENDFOR grammar irregularity -/

/-- C6: `\FORALL{...}...\ENDFOR` parses successfully (the expected closing
token computed for `forall` is `endfor`, so `\ENDFORALL` is rejected),
`\FOR`/`\WHILE` close with `\ENDFOR`/`\ENDWHILE`, and the rendered forall
loop reads "for all " in its header but closes with an "end for" line when
end keywords are not suppressed — and with no end line when they are. -/
theorem claim_C6 :
    isOkParse (parseInput 50 c6good) = true ∧
    parseErrOf (parseInput 50 c6bad) =
      some (.parseError "Expect text mismatch on ENDFORALL") ∧
    isOkParse (parseInput 50 c6for) = true ∧
    isOkParse (parseInput 50 c6while) = true ∧
    (okEvs (buildTree {} 50 (okNode (parseInput 50 c6good)) 0)).map evTag =
      ["begin-root", "begin-algorithmic", "begin-block", "line", "kw:for all ",
       "chunk", "kw: do", "begin-block", "line", "chunk", "end-group", "line",
       "kw:end for", "end-group", "end-group", "end-group"] ∧
    (okEvs (buildTree { noEnd := true } 50 (okNode (parseInput 50 c6good)) 0)).map evTag =
      ["begin-root", "begin-algorithmic", "begin-block", "line", "kw:for all ",
       "chunk", "kw: do", "begin-block", "line", "chunk", "end-group",
       "end-group", "end-group", "end-group"] :=
  ⟨by decide, by decide, by decide, by decide, by decide, by decide⟩

/-! ## C7 — whitespace is a flag, never literal text -/

/-- C7: `\STATE a\STATE b` and `\STATE a \STATE b` lex to atom sequences
that agree in type and text everywhere — the whitespace before the second
`\STATE` is consumed and recorded only as that atom's
preceded-by-whitespace flag; and a `\CALL{f}{x}` following text renders
with exactly one space before the function name when whitespace preceded
the `\CALL` token, and with none otherwise (shown both on a constructed
call node for either flag value and through the full lex/parse/render
pipeline). -/
theorem claim_C7 :
    lexInput c7nospace = .ok
      [⟨"func", "STATE", false⟩, ⟨"ordinary", "a", true⟩,
       ⟨"func", "STATE", false⟩, ⟨"ordinary", "b", true⟩, eofTok] ∧
    lexInput c7space = .ok
      [⟨"func", "STATE", false⟩, ⟨"ordinary", "a", true⟩,
       ⟨"func", "STATE", true⟩, ⟨"ordinary", "b", true⟩, eofTok] ∧
    (∀ ws : Bool,
      renderToHTML none 10
        [.mk "ordinary" (.strV "a") none false,
         .mk "call" (.strV "f")
           (some [.mk "close-text" .nullV
                    (some [.mk "ordinary" (.strV "x") none false]) false]) ws]
        (TextStyle.new none)
        = .ok ("a" ++ (if ws then " " else "")
            ++ "<span class=\"ps-funcname\">f</span>(x)")) ∧
    stmtRender "\\begin{algorithmic}\\STATE a \\CALL{f}{x}\\end{algorithmic}" =
      .ok "a <span class=\"ps-funcname\">f</span>(x)" ∧
    stmtRender "\\begin{algorithmic}\\STATE a\\CALL{f}{x}\\end{algorithmic}" =
      .ok "a<span class=\"ps-funcname\">f</span>(x)" :=
  ⟨by rfl, by rfl, fun ws => by cases ws <;> rfl, by rfl, by rfl⟩

/-! ## C8 — option validation happens after parsing, not before -/

/-- C8 counterexample: calling `renderToString` with a malformed source
and an indent-size value lacking the `em` suffix raises the *parse* error,
not the configuration error — the `Renderer` constructor runs
`parser.parse()` before constructing `RendererOptions`, so the claimed
"configuration error raised before any parsing begins" is false. -/
theorem claim_C8_counterexample :
    pipeErrOf (renderToString 50 50 c8badsrc c8opts 0) =
      some (.parseE (.parseError "Expect an atom of func but received EOF")) ∧
    pipeErrOf (renderToString 50 50 c8badsrc c8opts 0) ≠ some .configE :=
  ⟨by decide, by decide⟩

/-- C8 (amended): the indent-size unit check runs only after parsing
completes — whenever parsing fails, `renderToString` surfaces that parse
error regardless of the options; with a well-formed source, a unit other
than `em` does raise the configuration error (a `TypeError`). -/
theorem claim_C8 :
    (∀ (u : UserOptions) (fuelP fuelR cnt : Nat) (input : String) (e : PErr),
       parseInput fuelP input = .error e →
       renderToString fuelP fuelR input u cnt = .error (.parseE e)) ∧
    renderToString 50 50 c8goodsrc c8opts 0 = .error .configE := by
  constructor
  · intro u fuelP fuelR cnt input e h
    simp [renderToString, h]
  · rfl

/-- Witness for C8 at a concrete malformed input. -/
theorem claim_C8_witness :
    parseInput 50 c8badsrc =
      .error (.parseError "Expect an atom of func but received EOF") ∧
    renderToString 50 50 c8badsrc c8opts 0 =
      .error (.parseE (.parseError "Expect an atom of func but received EOF")) :=
  ⟨by rfl, claim_C8.1 c8opts 50 50 0 c8badsrc _ (by rfl)⟩

/-! ## C9 — the parse-failure excerpt window -/

/-- C9 (amended): for a failure at offset `pos` with at least 15
characters of input on either side, the `ParseError` message contains the
offset and a windowed excerpt with the caret marker at the failure
position, with 15 characters of context to its left but only *14* to its
right (the slice end `pos + 15` is applied after the one-character marker
has been inserted). -/
theorem claim_C9 (message : String) (pos : Nat) (input : String)
    (h1 : 15 ≤ pos) (h2 : pos + 15 ≤ input.length) :
    parseErrorMessage message pos input =
      "Error: " ++ message ++ " at position " ++ toString pos ++ ": `"
        ++ String.mk ((input.data.drop (pos - 15)).take 15)
        ++ String.singleton '↱'
        ++ String.mk ((input.data.drop pos).take 14) ++ "`" := by
  have hlen : input.data.length = input.length := rfl
  have htk : (input.data.take pos).length = pos := by
    rw [List.length_take]; omega
  have hL : ((input.data.take pos ++ '↱' :: input.data.drop pos).drop (pos - 15)).take
        (pos + 15 - (pos - 15))
      = ((input.data.drop (pos - 15)).take 15) ++ '↱' :: ((input.data.drop pos).take 14) := by
    rw [List.drop_append_of_le_length (by omega)]
    have h30 : pos + 15 - (pos - 15) = 30 := by omega
    have hseg : (input.data.take pos).drop (pos - 15)
        = (input.data.drop (pos - 15)).take 15 := by
      have hp : pos - 15 + 15 = pos := by omega
      rw [List.take_drop, hp]
    have hseglen : ((input.data.drop (pos - 15)).take 15).length = 15 := by
      rw [List.length_take, List.length_drop]
      omega
    rw [h30, hseg, List.take_append_eq_append_take,
        List.take_of_length_le (le_of_eq_of_le hseglen (by omega)), hseglen]
    rfl
  apply String.ext
  simp only [parseErrorMessage, String.data_append, String.singleton]
  rw [hL]
  simp

/-- Witness for C9 at `pos = 20` in a 40-character input. -/
theorem claim_C9_witness :
    15 ≤ 20 ∧ 20 + 15 ≤ c9input.length ∧
    parseErrorMessage "msg" 20 c9input =
      "Error: msg at position 20: `567890123456789↱01234567890123`" :=
  ⟨by decide, by decide,
    (claim_C9 "msg" 20 c9input (by decide) (by decide)).trans (by rfl)⟩

/-- C9 counterexample: the message built by the `ParseError` constructor
is not the spec's 15-characters-on-each-side excerpt — the slice bound
`pos + 15` is applied to the input *after* the marker was inserted at
`pos`, leaving only 14 characters of context to the right of the marker. -/
theorem claim_C9_counterexample :
    parseErrorMessage "msg" 20 c9input ≠ parseErrorMessageSpec "msg" 20 c9input ∧
    parseErrorMessage "msg" 20 c9input =
      "Error: msg at position 20: `567890123456789↱01234567890123`" :=
  ⟨by decide, by decide⟩

/-! ## C10 — font command with no following brace group -/

/-- C10: when a `font-cmd` atom is the last node of a text run, rendering
the run dereferences the `undefined` result of `this._nodes[0]` and so
throws a raw `TypeError` (not a `ParseError`, and no styling is emitted);
when a next node exists but is not a brace-delimited (`close-text`) group,
the font command is silently dropped and rendering continues with the next
node (after the font command's own preceding-whitespace flag has already
contributed its space). -/
theorem claim_C10 :
    (∀ (backend : Option MathBackend) (fuel : Nat) (ts : TextStyle)
       (hb : HTMLBuilder) (cmd : String) (ws : Bool),
       renderNodesAux backend (fuel + 1) ts hb [.mk "font-cmd" (.strV cmd) none ws]
         = .error .typeError) ∧
    (∀ (backend : Option MathBackend) (fuel : Nat) (ts : TextStyle)
       (hb : HTMLBuilder) (cmd : String) (ws : Bool) (n : PNode) (rest : List PNode),
       n.type ≠ "close-text" →
       renderNodesAux backend (fuel + 1) ts hb
           (.mk "font-cmd" (.strV cmd) none ws :: n :: rest)
         = renderNodesAux backend fuel ts (if ws then hb.putText " " else hb)
             (n :: rest)) ∧
    renderToHTML none 10
      [.mk "font-cmd" (.strV "textbf") none false,
       .mk "ordinary" (.strV "a") none false] (TextStyle.new none) = .ok "a" ∧
    renderToHTML none 10 [.mk "font-cmd" (.strV "textbf") none false]
      (TextStyle.new none) = .error .typeError := by
  refine ⟨fun backend fuel ts hb cmd ws => rfl, ?_, by rfl, by rfl⟩
  intro backend fuel ts hb cmd ws n rest h
  simp only [renderNodesAux, PNode.type, PNode.value, PNode.whitespace, JValue.strD]
  rw [if_pos (by simpa using h)]

/-! ## C4 — math delimiter lexing -/

/-- `indexOf` finds the junction occurrence when the pattern's first
character does not occur in the prefix `s` and the pattern starts `t`. -/
theorem idxOfSub_append_of_head_not_mem (p : List Char) (c : Char) :
    ∀ (s t : List Char), p.isPrefixOf t = true → p.head? = some c → c ∉ s →
      idxOfSub p (s ++ t) = some s.length := by
  intro s
  induction s with
  | nil =>
    intro t hp hhead _
    obtain ⟨p', rfl⟩ : ∃ p', p = c :: p' := by
      cases p with
      | nil => exact Option.noConfusion hhead
      | cons a p' => exact ⟨p', by rw [Option.some.inj hhead]⟩
    cases t with
    | nil => exact absurd hp (by simp [List.isPrefixOf])
    | cons b t' => simp [idxOfSub, hp]
  | cons a s' ih =>
    intro t hp hhead hc
    obtain ⟨p', rfl⟩ : ∃ p', p = c :: p' := by
      cases p with
      | nil => exact Option.noConfusion hhead
      | cons a p' => exact ⟨p', by rw [Option.some.inj hhead]⟩
    have hca : (c == a) = false := by
      simp only [beq_eq_false_iff_ne, ne_eq]
      intro hEq
      exact hc (hEq ▸ List.mem_cons_self a s')
    have ih' := ih t hp rfl (fun hm => hc (List.mem_cons_of_mem a hm))
    simp only [List.cons_append, idxOfSub, List.isPrefixOf, hca, Bool.false_and]
    simp [ih']

/-- `indexOf` finds nothing when the pattern's first character does not
occur at all. -/
theorem idxOfSub_none_of_head_not_mem (p : List Char) (c : Char) :
    ∀ (l : List Char), p.head? = some c → c ∉ l → idxOfSub p l = none := by
  intro l
  induction l with
  | nil =>
    intro hhead _
    cases p with
    | nil => exact Option.noConfusion hhead
    | cons a p' => rfl
  | cons a l' ih =>
    intro hhead hc
    obtain ⟨p', rfl⟩ : ∃ p', p = c :: p' := by
      cases p with
      | nil => exact Option.noConfusion hhead
      | cons a p' => exact ⟨p', by rw [Option.some.inj hhead]⟩
    have hca : (c == a) = false := by
      simp only [beq_eq_false_iff_ne, ne_eq]
      intro hEq
      exact hc (hEq ▸ List.mem_cons_self a l')
    have ih' := ih rfl (fun hm => hc (List.mem_cons_of_mem a hm))
    simp only [idxOfSub, List.isPrefixOf, hca, Bool.false_and]
    simp [ih']

/-- The whitespace/comment skip leaves an input alone when its first
character is neither whitespace nor `%`. -/
theorem skipWs_no_ws (fuel : Nat) (c : Char) (l : List Char)
    (hc : isSpaceJS c = false) (hp : c ≠ '%') :
    skipWsComments fuel (c :: l) false = (c :: l, false) := by
  cases fuel with
  | zero => rfl
  | succ fuel =>
    rw [skipWsComments]
    simp only [List.takeWhile_cons, hc, Bool.false_eq_true, if_false,
      List.length_nil, List.drop_zero, Nat.lt_irrefl, decide_False,
      Bool.or_false, Bool.false_or]
    split
    · rename_i heq
      injection heq with h1 _
      exact absurd h1 hp
    · rfl

/-- The special-escape patterns never match an input that does not start
with a backslash. -/
theorem matchSpecial_not_backslash (c : Char) (l : List Char) (h : c ≠ '\\') :
    matchSpecial (c :: l) = none := by
  have hb : ('\\' == c) = false := by
    simp only [beq_eq_false_iff_ne, ne_eq]
    exact fun hEq => h hEq.symm
  simp [matchSpecial, specialList, List.find?, List.isPrefixOf, hb]

/-- The special-escape patterns do not match `\(`. -/
theorem matchSpecial_backslash_paren (l : List Char) :
    matchSpecial ('\\' :: '(' :: l) = none := by
  simp [matchSpecial, specialList, List.find?, List.isPrefixOf]

/-- The last element of a nonempty prefix, as `getD` reads it across an
append. -/
theorem getD_append_last (a : Char) (s' t : List Char) (d : Char) :
    (a :: s' ++ t).getD s'.length d ∈ a :: s' := by
  rw [List.getD_append _ _ _ _ (by simp)]
  rw [List.getD_eq_getElem _ _ (by simp)]
  exact List.getElem_mem _

/-- The escaped-delimiter guard is false when the scanned prefix contains
no backslash. -/
theorem mathGuard_false (s t : List Char) (hb : '\\' ∉ s) :
    ((decide (s.length > 0)) && ((s ++ t).getD (s.length - 1) ' ' == '\\')) = false := by
  cases s with
  | nil => rfl
  | cons a s' =>
    have hmem := getD_append_last a s' t ' '
    simp only [List.length_cons, Nat.add_sub_cancel, Bool.and_eq_false_iff,
      beq_eq_false_iff_ne, ne_eq]
    right
    intro hEq
    exact hb (hEq ▸ hmem)

/-- The `$` scan finds the closing delimiter right after `s` in one
iteration. -/
theorem mathScanLoop_dollar (s rest : List Char) (hd : '$' ∉ s) (hb : '\\' ∉ s)
    (fuel : Nat) :
    mathScanLoop 1 ['$'] ('$' :: s ++ '$' :: rest) (fuel + 1) 1 (s ++ '$' :: rest)
      = .ok (some ('$' :: s ++ ['$'], s)) := by
  rw [mathScanLoop]
  rw [if_pos (by simp only [List.length_cons, List.length_append]; omega)]
  rw [idxOfSub_append_of_head_not_mem ['$'] '$' s ('$' :: rest)
    (by simp [List.isPrefixOf]) rfl hd]
  dsimp only
  rw [if_neg (by rw [mathGuard_false s ('$' :: rest) hb]; simp)]
  have htake : ('$' :: s ++ '$' :: rest).take (1 + s.length + ['$'].length) = '$' :: s ++ ['$'] := by
    have hsplit : '$' :: s ++ '$' :: rest = ('$' :: s ++ ['$']) ++ rest := by simp
    rw [hsplit, List.take_left' (by simp; omega)]
  have hinner : (('$' :: s ++ '$' :: rest).drop 1).take (1 + s.length - 1) = s := by
    have hdrop : ('$' :: s ++ '$' :: rest).drop 1 = s ++ '$' :: rest := rfl
    rw [hdrop]
    have h1 : 1 + s.length - 1 = s.length := by omega
    rw [h1, List.take_left]
  rw [htake, hinner]

/-- The `\(...\)` scan finds the closing delimiter right after `s` in one
iteration. -/
theorem mathScanLoop_paren (s rest : List Char) (hb : '\\' ∉ s) (fuel : Nat) :
    mathScanLoop 2 ['\\', ')'] ('\\' :: '(' :: (s ++ '\\' :: ')' :: rest)) (fuel + 1) 2
        (s ++ '\\' :: ')' :: rest)
      = .ok (some ('\\' :: '(' :: (s ++ ['\\', ')']), s)) := by
  rw [mathScanLoop]
  rw [if_pos (by simp only [List.length_cons, List.length_append]; omega)]
  rw [idxOfSub_append_of_head_not_mem ['\\', ')'] '\\' s ('\\' :: ')' :: rest)
    (by simp [List.isPrefixOf]) rfl hb]
  dsimp only
  rw [if_neg (by rw [mathGuard_false s ('\\' :: ')' :: rest) hb]; simp)]
  have htake : ('\\' :: '(' :: (s ++ '\\' :: ')' :: rest)).take
      (2 + s.length + ['\\', ')'].length) = '\\' :: '(' :: (s ++ ['\\', ')']) := by
    have hsplit : '\\' :: '(' :: (s ++ '\\' :: ')' :: rest)
        = ('\\' :: '(' :: (s ++ ['\\', ')'])) ++ rest := by simp
    rw [hsplit, List.take_left' (by simp; omega)]
  have hinner : (('\\' :: '(' :: (s ++ '\\' :: ')' :: rest)).drop 2).take
      (2 + s.length - 2) = s := by
    have hdrop : ('\\' :: '(' :: (s ++ '\\' :: ')' :: rest)).drop 2
        = s ++ '\\' :: ')' :: rest := rfl
    rw [hdrop]
    have h1 : 2 + s.length - 2 = s.length := by omega
    rw [h1, List.take_left]
  rw [htake, hinner]

/-- `mathPattern.exec` on `$s$⋯`. -/
theorem mathPatternExec_dollar (s rest : List Char) (hd : '$' ∉ s) (hb : '\\' ∉ s) :
    mathPatternExec ('$' :: s ++ '$' :: rest) = .ok (some ('$' :: s ++ ['$'], s)) := by
  unfold mathPatternExec
  rw [if_pos (by simp)]
  have hdrop : ('$' :: s ++ '$' :: rest).drop 1 = s ++ '$' :: rest := rfl
  rw [hdrop, mathScanLoop_dollar s rest hd hb]
  rfl

/-- `mathPattern.exec` on `\(s\)⋯`. -/
theorem mathPatternExec_paren (s rest : List Char) (hb : '\\' ∉ s) :
    mathPatternExec ('\\' :: '(' :: (s ++ '\\' :: ')' :: rest))
      = .ok (some ('\\' :: '(' :: (s ++ ['\\', ')']), s)) := by
  unfold mathPatternExec
  rw [if_neg (by simp [List.isPrefixOf])]
  rw [if_pos (by simp [List.isPrefixOf])]
  have hdrop : ('\\' :: '(' :: (s ++ '\\' :: ')' :: rest)).drop 2
      = s ++ '\\' :: ')' :: rest := rfl
  rw [hdrop, mathScanLoop_paren s rest hb]
  rfl

/-- Lexing `$s$⋯` produces a math atom with the delimiters stripped. -/
theorem lexNext_math_dollar (s rest : List Char) (hd : '$' ∉ s) (hb : '\\' ∉ s)
    (fuel : Nat) :
    lexNext fuel ('$' :: (s ++ '$' :: rest))
      = .ok (⟨"math", String.mk s, false⟩, rest) := by
  have hexec : mathPatternExec ('$' :: (s ++ '$' :: rest))
      = .ok (some ('$' :: (s ++ ['$']), s)) := by
    simpa using mathPatternExec_dollar s rest hd hb
  unfold lexNext
  rw [skipWs_no_ws fuel '$' _ (by decide) (by decide)]
  dsimp only
  simp only [List.isEmpty_cons, Bool.false_eq_true, if_false]
  rw [matchSpecial_not_backslash '$' _ (by decide)]
  rw [hexec]
  dsimp only
  have hdrop : ('$' :: (s ++ '$' :: rest)).drop ('$' :: (s ++ ['$'])).length = rest := by
    have hsplit : ('$' :: (s ++ '$' :: rest)) = ('$' :: (s ++ ['$'])) ++ rest := by simp
    rw [hsplit, List.drop_left]
  rw [hdrop]

/-- Lexing `\(s\)⋯` produces the same math atom. -/
theorem lexNext_math_paren (s rest : List Char) (hb : '\\' ∉ s) (fuel : Nat) :
    lexNext fuel ('\\' :: '(' :: (s ++ '\\' :: ')' :: rest))
      = .ok (⟨"math", String.mk s, false⟩, rest) := by
  unfold lexNext
  rw [skipWs_no_ws fuel '\\' _ (by decide) (by decide)]
  dsimp only
  simp only [List.isEmpty_cons, Bool.false_eq_true, if_false]
  rw [matchSpecial_backslash_paren]
  rw [mathPatternExec_paren s rest hb]
  dsimp only
  have hdrop : ('\\' :: '(' :: (s ++ '\\' :: ')' :: rest)).drop
      ('\\' :: '(' :: (s ++ ['\\', ')'])).length = rest := by
    have hsplit : '\\' :: '(' :: (s ++ '\\' :: ')' :: rest)
        = ('\\' :: '(' :: (s ++ ['\\', ')'])) ++ rest := by simp
    rw [hsplit, List.drop_left]
  rw [hdrop]

/-- `mathPattern.exec` throws when no closing `$` occurs in a nonempty
remainder. -/
theorem mathPatternExec_unclosed (a : Char) (s' : List Char) (hd : '$' ∉ a :: s') :
    mathPatternExec ('$' :: a :: s') = .error "Math environment is not closed" := by
  unfold mathPatternExec
  rw [if_pos (by simp [List.isPrefixOf])]
  have hdrop : ('$' :: a :: s').drop 1 = a :: s' := rfl
  rw [hdrop, mathScanLoop]
  rw [if_pos (by simp only [List.length_cons]; omega)]
  rw [idxOfSub_none_of_head_not_mem ['$'] '$' (a :: s') rfl hd]
  rfl

/-- Lexing an opening `$` with no closing `$` anywhere raises an error
(for a nonempty remainder the `Math environment is not closed` error; for
the bare `$` the unrecognizable-atom error). -/
theorem lexNext_math_unclosed (s : List Char) (hd : '$' ∉ s) (fuel : Nat) :
    ∃ e, lexNext fuel ('$' :: s) = .error e := by
  unfold lexNext
  rw [skipWs_no_ws fuel '$' _ (by decide) (by decide)]
  dsimp only
  simp only [List.isEmpty_cons, Bool.false_eq_true, if_false]
  rw [matchSpecial_not_backslash '$' _ (by decide)]
  cases s with
  | nil => exact ⟨"Unrecoganizable atom", rfl⟩
  | cons a s' =>
    rw [mathPatternExec_unclosed a s' hd]
    exact ⟨"Math environment is not closed", rfl⟩

/-! ## C4 generalization: escaped closing delimiters -/

/-- `parseText` always returns an `<openOrClose>-text` node. -/
theorem parseText_types (fuel : Nat) (oc : String) :
    ∀ st n st', parseText fuel oc st = .ok (n, st') → n.type = oc ++ "-text" := by
  intro st n st' h
  unfold parseText at h
  split at h
  · exact Except.noConfusion h
  · cases h; rfl

/-- `parseBlock` always returns a `block` node. -/
theorem parseBlock_types (fuel : Nat) :
    ∀ st n st', parseBlock fuel st = .ok (n, st') → n.type = "block" := by
  intro st n st' h
  unfold parseBlock at h
  split at h
  · exact Except.noConfusion h
  · cases h; rfl

/-- The elif loop of `_parseIf` produces `2k` children, alternating
condition (`close-text`) and `block` nodes. -/
theorem parseIfElifs_shape (pCond pBlock : PState → Except PErr (PNode × PState))
    (hC : ∀ st n st', pCond st = .ok (n, st') → n.type = "close-text")
    (hB : ∀ st n st', pBlock st = .ok (n, st') → n.type = "block") :
    ∀ fuel st l k st', parseIfElifs pCond pBlock fuel st = .ok (l, k, st') →
      l.length = 2 * k ∧
      ∀ i, i < k → ∃ c b, l.get? (2 * i) = some c ∧ c.type = "close-text" ∧
        l.get? (2 * i + 1) = some b ∧ b.type = "block" := by
  intro fuel
  induction fuel with
  | zero =>
    intro st l k st' h
    exact Except.noConfusion h
  | succ fuel IH =>
    intro st l k st' h
    rw [parseIfElifs] at h
    split at h
    · cases h
      exact ⟨rfl, fun i hi => absurd hi (by omega)⟩
    split at h
    · exact Except.noConfusion h
    split at h
    · exact Except.noConfusion h
    split at h
    · exact Except.noConfusion h
    split at h
    · exact Except.noConfusion h
    split at h
    · exact Except.noConfusion h
    cases h
    obtain ⟨hlen, hidx⟩ := IH _ _ _ _ (by assumption)
    refine ⟨by simp only [List.length_cons, hlen]; omega, ?_⟩
    intro i hi
    cases i with
    | zero =>
      exact ⟨_, _, rfl, hC _ _ _ (by assumption), rfl, hB _ _ _ (by assumption)⟩
    | succ j =>
      have h2j : 2 * (j + 1) = 2 * j + 1 + 1 := by omega
      obtain ⟨c', b', hc', htc', hb', htb'⟩ := hidx j (by omega)
      exact ⟨c', b', by rw [h2j]; simpa using hc', htc',
             by rw [h2j]; simpa using hb', htb'⟩

/-- C3: every successfully parsed `if` construct yields a node whose value
records `numElif = n` and `hasElse = e`, whose child list has exactly
`2 + 2n + 1` elements when `e` holds and `2 + 2n` otherwise, laid out
positionally as `[cond0, block0, cond1, block1, ..., condN, blockN,
(elseBlock)?]` with each condition a `close-text` node and each block a
`block` node, so the renderer can index children by position. -/
theorem claim_C3 (fuel : Nat) (pCond pBlock : PState → Except PErr (PNode × PState))
    (hC : ∀ st n st', pCond st = .ok (n, st') → n.type = "close-text")
    (hB : ∀ st n st', pBlock st = .ok (n, st') → n.type = "block")
    (st : PState) (node : PNode) (st' : PState)
    (h : parseIf fuel pCond pBlock st = .ok (some (node, st'))) :
    ∃ n e cs, node = .mk "if" (.ifV n e) (some cs) false ∧
      cs.length = 2 + 2 * n + (if e then 1 else 0) ∧
      (∀ i, i ≤ n → ∃ c b, cs.get? (2 * i) = some c ∧ c.type = "close-text" ∧
        cs.get? (2 * i + 1) = some b ∧ b.type = "block") ∧
      (e = true → ∃ b, cs.get? (2 + 2 * n) = some b ∧ b.type = "block") := by
  unfold parseIf at h
  split at h
  · exact Option.noConfusion (Except.ok.inj h)
  split at h
  · exact Except.noConfusion h
  split at h
  · exact Except.noConfusion h
  split at h
  · exact Except.noConfusion h
  split at h
  · exact Except.noConfusion h
  split at h
  · exact Except.noConfusion h
  rename_i elifs numElif st6 helifs
  split at h
  · exact Except.noConfusion h
  rename_i elseCh hasElse st7 helse
  split at h
  · exact Except.noConfusion h
  cases h
  obtain ⟨hlen, hidx⟩ := parseIfElifs_shape pCond pBlock hC hB _ _ _ _ _ helifs
  have helseSplit :
      (elseCh.length = (if hasElse then 1 else 0)) ∧
      (hasElse = true → ∃ eb, elseCh = [eb] ∧ eb.type = "block") := by
    unfold parseIfElse at helse
    revert helse
    split
    · intro he
      cases he
      exact ⟨rfl, fun hcon => Bool.noConfusion hcon⟩
    · split
      · intro he; exact Except.noConfusion he
      · intro he
        cases he
        exact ⟨rfl, fun _ => ⟨_, rfl, hB _ _ _ (by assumption)⟩⟩
  refine ⟨numElif, hasElse, _, rfl, ?_, ?_, ?_⟩
  · simp only [List.length_cons, List.length_append, hlen, helseSplit.1]
    omega
  · intro i hi
    cases i with
    | zero =>
      exact ⟨_, _, rfl, hC _ _ _ (by assumption), rfl, hB _ _ _ (by assumption)⟩
    | succ j =>
      have h2j : 2 * (j + 1) = 2 * j + 1 + 1 := by omega
      obtain ⟨c', b', hc', htc', hb', htb'⟩ := hidx j (by omega)
      refine ⟨c', b', ?_, htc', ?_, htb'⟩
      · rw [h2j]
        simp only [List.get?_cons_succ]
        rw [List.get?_append (by rw [hlen]; omega)]
        exact hc'
      · rw [h2j]
        simp only [List.get?_cons_succ]
        rw [List.get?_append (by rw [hlen]; omega)]
        exact hb'
  · intro he
    obtain ⟨eb, hebeq, hebty⟩ := helseSplit.2 he
    refine ⟨eb, ?_, hebty⟩
    have h2n : 2 + 2 * numElif = 2 * numElif + 1 + 1 := by omega
    rw [h2n]
    simp only [List.get?_cons_succ]
    rw [List.get?_append_right hlen.le, hlen, hebeq]
    simp [Nat.sub_self]

/-- Witness for C3 on a parsed `\IF` with one elif and an else branch. -/
theorem claim_C3_witness :
    parseIf 30 (parseText 30 "close") (parseBlock 30) c3state
      = .ok (some (c3node, c3state2)) ∧
    (∃ n e cs, c3node = .mk "if" (.ifV n e) (some cs) false ∧
      cs.length = 2 + 2 * n + (if e then 1 else 0) ∧
      (∀ i, i ≤ n → ∃ c b, cs.get? (2 * i) = some c ∧ c.type = "close-text" ∧
        cs.get? (2 * i + 1) = some b ∧ b.type = "block") ∧
      (e = true → ∃ b, cs.get? (2 + 2 * n) = some b ∧ b.type = "block")) :=
  ⟨by rfl,
    claim_C3 30 (parseText 30 "close") (parseBlock 30)
      (fun st n st' h => (parseText_types 30 "close" st n st' h).trans rfl)
      (parseBlock_types 30)
      c3state c3node c3state2 (by rfl)⟩

/-- Witness for C10 on a font command followed by an ordinary atom. -/
theorem claim_C10_witness :
    (PNode.mk "ordinary" (.strV "a") none false).type ≠ "close-text" ∧
    renderNodesAux none 6 (TextStyle.new none) ⟨[], []⟩
        [.mk "font-cmd" (.strV "textbf") none false,
         .mk "ordinary" (.strV "a") none false]
      = renderNodesAux none 5 (TextStyle.new none) ⟨[], []⟩
          [.mk "ordinary" (.strV "a") none false] :=
  ⟨by decide,
    claim_C10.2.1 none 5 (TextStyle.new none) ⟨[], []⟩ "textbf" false
      (.mk "ordinary" (.strV "a") none false) [] (by decide)⟩

/-! ## Counting "end" lines across a `_buildTree` run (claim C2) -/

/-- A successful `children[i]` access is index `i` of the children list. -/
theorem getChildE_ok {n : PNode} {i : Nat} {c : PNode} (h : getChildE n i = .ok c) :
    n.childrenD.get? i = some c := by
  unfold getChildE at h
  split at h
  · exact Except.noConfusion h
  rename_i cs hcs
  split at h
  · exact Except.noConfusion h
  rename_i c0 hget
  cases h
  simp only [PNode.childrenD, hcs, Option.getD_some]
  exact hget

/-- A successful `children` access returns the default children list. -/
theorem childrenE_ok {n : PNode} {cs : List PNode} (h : childrenE n = .ok cs) :
    n.childrenD = cs := by
  unfold childrenE at h
  split at h
  · exact Except.noConfusion h
  rename_i cs0 hcs
  cases h
  simp [PNode.childrenD, hcs]

theorem sum_map_zero (l : List PNode) : (l.map (fun _ => (0 : Nat))).sum = 0 := by
  induction l with
  | nil => rfl
  | cons a l ih => simp [ih]

theorem sum_map_ite (P : Prop) [Decidable P] (f : PNode → Nat) (l : List PNode) :
    (l.map (fun n => if P then 0 else f n)).sum = if P then 0 else (l.map f).sum := by
  by_cases hP : P
  · simp only [if_pos hP]; exact sum_map_zero l
  · simp only [if_neg hP]

theorem hoistCountAux_ite (P : Prop) [Decidable P] (f : PNode → Nat) (blk : PNode) :
    hoistCountAux (fun n => if P then 0 else f n) blk
      = if P then 0 else hoistCountAux f blk := by
  by_cases hP : P <;> simp [hoistCountAux, hP, sum_map_zero]

theorem elifCountAux_ite (P : Prop) [Decidable P] (f fh : PNode → Nat)
    (children : List PNode) : ∀ (k ei : Nat),
    elifCountAux (fun n => if P then 0 else f n) (fun n => if P then 0 else fh n)
      children k ei = if P then 0 else elifCountAux f fh children k ei := by
  intro k
  induction k with
  | zero => intro ei; by_cases hP : P <;> simp [elifCountAux, hP]
  | succ k ih =>
    intro ei
    simp only [elifCountAux, ih]
    by_cases hP : P
    · simp only [if_pos hP]
      cases children.get? (2 + 2 * ei) <;> cases children.get? (2 + 2 * ei + 1) <;>
        simp [hP]
    · simp [hP]

/-- `countEnds` across `_buildTreeForAllChildren`. -/
theorem countEnds_renderList (r : PNode → Nat → Except RErr (List Event × Nat))
    (g : PNode → Nat)
    (hr : ∀ n cnt evs cnt', r n cnt = .ok (evs, cnt') → countEnds evs = g n) :
    ∀ (ns : List PNode) (cnt : Nat) (evs : List Event) (cnt' : Nat),
      renderList r ns cnt = .ok (evs, cnt') → countEnds evs = (ns.map g).sum := by
  intro ns
  induction ns with
  | nil =>
    intro cnt evs cnt' h
    simp only [renderList] at h
    cases h
    rfl
  | cons n ns ih =>
    intro cnt evs cnt' h
    simp only [renderList] at h
    split at h
    · exact Except.noConfusion h
    rename_i evs1 c1 h1
    split at h
    · exact Except.noConfusion h
    rename_i evs2 c2 h2
    cases h
    simp [hr _ _ _ _ h1, ih _ _ _ h2]

/-- `countEnds` across `_buildCommentsFromBlock` plus the following
`_buildTree(blockNode)`. -/
theorem countEnds_hoistRender (r : PNode → Nat → Except RErr (List Event × Nat))
    (g : PNode → Nat)
    (hr : ∀ n cnt evs cnt', r n cnt = .ok (evs, cnt') → countEnds evs = g n)
    (blk : PNode) (c : Nat) (evs : List Event) (c' : Nat)
    (h : hoistRender r blk c = .ok (evs, c')) :
    countEnds evs = hoistCountAux g blk := by
  simp only [hoistRender] at h
  split at h
  · exact Except.noConfusion h
  rename_i cs hcs
  split at h
  · exact Except.noConfusion h
  rename_i evs1 c1 h1
  split at h
  · exact Except.noConfusion h
  rename_i evs2 c2 h2
  cases h
  simp only [hoistCountAux, childrenE_ok hcs]
  rw [countEnds_append, countEnds_renderList r g hr _ _ _ _ h1, hr _ _ _ _ h2]

/-- `countEnds` across the elif-branch loop. -/
theorem countEnds_renderElifs (r hoist : PNode → Nat → Except RErr (List Event × Nat))
    (g gh : PNode → Nat)
    (hr : ∀ n cnt evs cnt', r n cnt = .ok (evs, cnt') → countEnds evs = g n)
    (hh : ∀ n cnt evs cnt', hoist n cnt = .ok (evs, cnt') → countEnds evs = gh n)
    (children : List PNode) :
    ∀ (k ei cnt : Nat) (evs : List Event) (cnt' : Nat),
      renderElifs r hoist children k ei cnt = .ok (evs, cnt') →
      countEnds evs = elifCountAux g gh children k ei := by
  intro k
  induction k with
  | zero =>
    intro ei cnt evs cnt' h
    simp only [renderElifs] at h
    cases h
    rfl
  | succ k ih =>
    intro ei cnt evs cnt' h
    simp only [renderElifs] at h
    split at h
    · exact Except.noConfusion h
    rename_i cond hcond
    split at h
    · exact Except.noConfusion h
    rename_i ce cnt1 hce
    split at h
    · exact Except.noConfusion h
    rename_i blk hblk
    split at h
    · exact Except.noConfusion h
    rename_i be cnt2 hbe
    split at h
    · exact Except.noConfusion h
    rename_i re cnt3 hre
    cases h
    simp only [elifCountAux, hcond, hblk]
    simp [hr _ _ _ _ hce, hh _ _ _ _ hbe, ih _ _ _ _ hre, (by decide : isEndKw "else if " = false), (by decide : isEndKw " then" = false)]
    omega


/-! Case equations for `endCountT` at positive fuel. -/

theorem endCountT_children_sum (fuel : Nat) (n : PNode)
    (h : n.type = "root" ∨ n.type = "algorithmic" ∨ n.type = "block") :
    endCountT (fuel + 1) n = (n.childrenD.map (endCountT fuel)).sum := by
  rcases h with h | h | h <;> (rw [endCountT, h]; rfl)

theorem endCountT_algorithm (fuel : Nat) (n : PNode) (h : n.type = "algorithm") :
    endCountT (fuel + 1) n =
      (match (n.childrenD.filter (fun c => c.type == "caption")).getLast? with
       | some c => endCountT fuel c
       | none => 0)
      + ((n.childrenD.filter (fun c => c.type != "caption")).map (endCountT fuel)).sum := by
  rw [endCountT, h]; rfl

theorem endCountT_function (fuel : Nat) (n : PNode) (ftype fname : String)
    (h : n.type = "function") (hv : n.value = .funcV ftype fname) :
    endCountT (fuel + 1) n =
      (if isEndKw ("end " ++ strLower ftype) then 1 else 0)
      + (match n.childrenD.get? 0 with
         | some c => endCountT fuel c | none => 0)
      + (match n.childrenD.get? 1 with
         | some c => hoistCountAux (endCountT fuel) c | none => 0) := by
  rw [endCountT, h, hv]; rfl

theorem endCountT_if (fuel : Nat) (n : PNode) (h : n.type = "if") :
    endCountT (fuel + 1) n =
      1 + (match n.childrenD.get? 0 with
           | some c => endCountT fuel c | none => 0)
      + (match n.childrenD.get? 1 with
         | some c => hoistCountAux (endCountT fuel) c | none => 0)
      + elifCountAux (endCountT fuel) (hoistCountAux (endCountT fuel)) n.childrenD
          (match n.value with | .ifV ne _ => ne | _ => 0) 0
      + (if (match n.value with | .ifV _ he => he | _ => false) then
           match n.childrenD.getLast? with
           | some c => hoistCountAux (endCountT fuel) c | none => 0
         else 0) := by
  rw [endCountT, h]; rfl

theorem endCountT_loop (fuel : Nat) (n : PNode)
    (h : n.type = "loop" ∨ n.type = "upon") :
    endCountT (fuel + 1) n =
      1 + (match n.childrenD.get? 0 with
           | some c => endCountT fuel c | none => 0)
      + (match n.childrenD.get? 1 with
         | some c => hoistCountAux (endCountT fuel) c | none => 0) := by
  rcases h with h | h <;> (rw [endCountT, h]; rfl)

theorem endCountT_repeatCase (fuel : Nat) (n : PNode) (h : n.type = "repeat") :
    endCountT (fuel + 1) n =
      (match n.childrenD.get? 0 with
       | some c => hoistCountAux (endCountT fuel) c | none => 0)
      + (match n.childrenD.get? 1 with
         | some c => endCountT fuel c | none => 0) := by
  rw [endCountT, h]; rfl

theorem endCountT_child0 (fuel : Nat) (n : PNode)
    (h : n.type = "caption" ∨ n.type = "comment" ∨ n.type = "statement") :
    endCountT (fuel + 1) n =
      (match n.childrenD.get? 0 with
       | some c => endCountT fuel c | none => 0) := by
  rcases h with h | h | h <;> (rw [endCountT, h]; rfl)

theorem endCountT_zero (fuel : Nat) (n : PNode)
    (h : n.type = "command" ∨ n.type = "open-text" ∨ n.type = "close-text") :
    endCountT (fuel + 1) n = 0 := by
  rcases h with h | h | h <;> (rw [endCountT, h]; rfl)

/-! Keyword-text facts used when counting. -/

theorem isEndKw_endIf : isEndKw "end if" = true := by decide
theorem isEndKw_endFor : isEndKw "end for" = true := by decide
theorem isEndKw_endWhile : isEndKw "end while" = true := by decide
theorem isEndKw_endUpon : isEndKw "end upon" = true := by decide
theorem isEndKw_ifSp : isEndKw "if " = false := by decide
theorem isEndKw_thenKw : isEndKw " then" = false := by decide
theorem isEndKw_elseKw : isEndKw "else" = false := by decide
theorem isEndKw_repeatKw : isEndKw "repeat" = false := by decide
theorem isEndKw_untilSp : isEndKw "until " = false := by decide
theorem isEndKw_doKw : isEndKw " do" = false := by decide
theorem isEndKw_uponSp : isEndKw "upon " = false := by decide

/-- Whichever loop a `loop` node is, its closing keyword is an "end"
keyword. -/
theorem isEndKw_endLoopName (b : Bool) :
    isEndKw (if b = true then "end while" else "end for") = true := by
  cases b <;> decide

/-- A statement keyword is never an "end" keyword. -/
theorem countEnds_keyword_stmt (v : JValue) :
    countEnds (keywordIfAny (displayStmtName v)) = 0 := by
  rw [displayStmtName.eq_def]
  split <;> rfl

/-- A command keyword is never an "end" keyword. -/
theorem countEnds_keyword_cmd (v : JValue) :
    countEnds (keywordIfAny (displayCmdName v)) = 0 := by
  rw [displayCmdName.eq_def]
  split <;> rfl


set_option maxHeartbeats 1000000 in
/-- `countEnds` over a successful `_buildTree` run: with `noEnd` set no end
keyword is ever emitted; otherwise the count is `endCountT`. -/
theorem countEnds_buildTree (opts : RendOpts) :
    ∀ (fuel : Nat) (n : PNode) (cnt : Nat) (evs : List Event) (cnt' : Nat),
      buildTree opts fuel n cnt = .ok (evs, cnt') →
      countEnds evs = if opts.noEnd then 0 else endCountT fuel n := by
  intro fuel
  induction fuel with
  | zero => intro n cnt evs cnt' h; exact Except.noConfusion h
  | succ fuel ih =>
    have hhoist : ∀ (blk : PNode) (c : Nat) (evs : List Event) (c' : Nat),
        hoistRender (buildTree opts fuel) blk c = .ok (evs, c') →
        countEnds evs = if opts.noEnd then 0
          else hoistCountAux (endCountT fuel) blk := by
      intro blk c evs c' hh
      rw [countEnds_hoistRender (buildTree opts fuel)
            (fun m => if opts.noEnd then 0 else endCountT fuel m) ih blk c evs c' hh,
          hoistCountAux_ite]
    have hlist : ∀ (ns : List PNode) (c : Nat) (evs : List Event) (c' : Nat),
        renderList (buildTree opts fuel) ns c = .ok (evs, c') →
        countEnds evs = if opts.noEnd then 0
          else (ns.map (endCountT fuel)).sum := by
      intro ns c evs c' hl
      rw [countEnds_renderList (buildTree opts fuel)
            (fun m => if opts.noEnd then 0 else endCountT fuel m) ih ns c evs c' hl,
          sum_map_ite]
    have helif : ∀ (children : List PNode) (k ei c : Nat) (evs : List Event) (c' : Nat),
        renderElifs (buildTree opts fuel) (hoistRender (buildTree opts fuel))
            children k ei c = .ok (evs, c') →
        countEnds evs = if opts.noEnd then 0
          else elifCountAux (endCountT fuel) (hoistCountAux (endCountT fuel))
            children k ei := by
      intro children k ei c evs c' he
      rw [countEnds_renderElifs (buildTree opts fuel) (hoistRender (buildTree opts fuel))
            (fun m => if opts.noEnd then 0 else endCountT fuel m)
            (fun m => if opts.noEnd then 0 else hoistCountAux (endCountT fuel) m)
            ih hhoist children k ei c evs c' he,
          elifCountAux_ite]
    intro n cnt evs cnt' h
    simp only [buildTree] at h
    split at h
    -- root
    · rename_i htype
      split at h
      · exact Except.noConfusion h
      rename_i cs hcs
      split at h
      · exact Except.noConfusion h
      rename_i evs1 c1 h1
      cases h
      have h1' := hlist _ _ _ _ h1
      rw [endCountT_children_sum fuel n (Or.inl htype), childrenE_ok hcs]
      cases hno : opts.noEnd <;> simp [hno] at h1' ⊢ <;> omega
    -- algorithm
    · rename_i htype
      split at h
      · exact Except.noConfusion h
      rename_i cs hcs
      split at h
      · exact Except.noConfusion h
      rename_i hevs cnt2 hheader
      split at h
      · exact Except.noConfusion h
      rename_i evs2 c3 h2
      cases h
      have h2' := hlist _ _ _ _ h2
      rw [endCountT_algorithm fuel n htype, childrenE_ok hcs]
      split at hheader
      · rename_i lastC hlast
        split at hheader
        · exact Except.noConfusion hheader
        rename_i evsc cc hcap
        cases hheader
        have hcap' := ih _ _ _ _ hcap
        cases hno : opts.noEnd <;> simp [hno] at h2' hcap' ⊢ <;> omega
      · rename_i hlast
        cases hheader
        cases hno : opts.noEnd <;> simp [hno] at h2' ⊢ <;> omega
    -- algorithmic
    · rename_i htype
      split at h
      · exact Except.noConfusion h
      rename_i cs hcs
      split at h
      · exact Except.noConfusion h
      rename_i evs1 c1 h1
      cases h
      have h1' := hlist _ _ _ _ h1
      rw [endCountT_children_sum fuel n (Or.inr (Or.inl htype)), childrenE_ok hcs]
      cases hno : opts.noEnd <;> simp [hno] at h1' ⊢ <;> omega
    -- block
    · rename_i htype
      split at h
      · exact Except.noConfusion h
      rename_i cs hcs
      split at h
      · exact Except.noConfusion h
      rename_i evs1 c1 h1
      cases h
      have h1' := hlist _ _ _ _ h1
      rw [endCountT_children_sum fuel n (Or.inr (Or.inr htype)), childrenE_ok hcs]
      cases hno : opts.noEnd <;> simp [hno] at h1' ⊢ <;> omega
    -- function
    · rename_i htype
      split at h
      · rename_i ftype fname heqv
        split at h
        · exact Except.noConfusion h
        rename_i textNode hc0
        split at h
        · exact Except.noConfusion h
        rename_i blockNode hc1
        split at h
        · exact Except.noConfusion h
        rename_i tevs c1 ht
        split at h
        · exact Except.noConfusion h
        rename_i bevs c2 hb
        cases h
        have ht' := ih _ _ _ _ ht
        have hb' := hhoist _ _ _ _ hb
        rw [endCountT_function fuel n ftype fname htype heqv,
            getChildE_ok hc0, getChildE_ok hc1]
        cases hno : opts.noEnd <;>
          simp [hno, isEndKw_append_space] at ht' hb' ⊢ <;> omega
      · exact Except.noConfusion h
    -- if
    · rename_i htype
      split at h
      · exact Except.noConfusion h
      rename_i v hvne
      split at h
      · exact Except.noConfusion h
      rename_i ifCond hc0
      split at h
      · exact Except.noConfusion h
      rename_i cevs c1 hcv
      split at h
      · exact Except.noConfusion h
      rename_i ifBlock hc1
      split at h
      · exact Except.noConfusion h
      rename_i bevs c2 hbv
      split at h
      · exact Except.noConfusion h
      rename_i eevs c3 hev
      split at h
      · exact Except.noConfusion h
      rename_i elevs c4 helse
      cases h
      have hc' := ih _ _ _ _ hcv
      have hb' := hhoist _ _ _ _ hbv
      have he' := helif _ _ _ _ _ _ hev
      rw [endCountT_if fuel n htype, getChildE_ok hc0, getChildE_ok hc1]
      split at helse
      · rename_i hhe
        split at helse
        · exact Except.noConfusion helse
        rename_i elseBlock hlastE
        split at helse
        · exact Except.noConfusion helse
        rename_i evsE cE hhel
        cases helse
        have hel' := hhoist _ _ _ _ hhel
        rw [hlastE]
        cases hno : opts.noEnd <;>
          simp [hno, hhe, isEndKw_endIf, isEndKw_ifSp, isEndKw_thenKw,
            isEndKw_elseKw] at hc' hb' he' hel' ⊢ <;> omega
      · rename_i hhe
        cases helse
        cases hno : opts.noEnd <;>
          simp [hno, hhe, isEndKw_endIf, isEndKw_ifSp, isEndKw_thenKw]
            at hc' hb' he' ⊢ <;> omega
    -- loop
    · rename_i htype
      split at h
      · exact Except.noConfusion h
      rename_i loopCond hc0
      split at h
      · exact Except.noConfusion h
      rename_i cevs c1 hcv
      split at h
      · exact Except.noConfusion h
      rename_i blockN hc1
      split at h
      · exact Except.noConfusion h
      rename_i bevs c2 hb
      cases h
      have hc' := ih _ _ _ _ hcv
      have hb' := hhoist _ _ _ _ hb
      rw [endCountT_loop fuel n (Or.inl htype), getChildE_ok hc0, getChildE_ok hc1]
      cases hno : opts.noEnd <;>
        simp [hno, isEndKw_append_space, isEndKw_doKw, isEndKw_endLoopName]
          at hc' hb' ⊢ <;> omega
    -- repeat
    · rename_i htype
      split at h
      · exact Except.noConfusion h
      rename_i repeatBlock hc0
      split at h
      · exact Except.noConfusion h
      rename_i bevs c1 hb
      split at h
      · exact Except.noConfusion h
      rename_i repeatCond hc1
      split at h
      · exact Except.noConfusion h
      rename_i cevs c2 hcv
      cases h
      have hb' := hhoist _ _ _ _ hb
      have hc' := ih _ _ _ _ hcv
      rw [endCountT_repeatCase fuel n htype, getChildE_ok hc0, getChildE_ok hc1]
      cases hno : opts.noEnd <;>
        simp [hno, isEndKw_repeatKw, isEndKw_untilSp] at hc' hb' ⊢ <;> omega
    -- upon
    · rename_i htype
      split at h
      · exact Except.noConfusion h
      rename_i uponCond hc0
      split at h
      · exact Except.noConfusion h
      rename_i cevs c1 hcv
      split at h
      · exact Except.noConfusion h
      rename_i uponBlock hc1
      split at h
      · exact Except.noConfusion h
      rename_i bevs c2 hb
      cases h
      have hc' := ih _ _ _ _ hcv
      have hb' := hhoist _ _ _ _ hb
      rw [endCountT_loop fuel n (Or.inr htype), getChildE_ok hc0, getChildE_ok hc1]
      cases hno : opts.noEnd <;>
        simp [hno, isEndKw_uponSp, isEndKw_endUpon] at hc' hb' ⊢ <;> omega
    -- command
    · rename_i htype
      cases h
      rw [endCountT_zero fuel n (Or.inl htype)]
      cases hno : opts.noEnd <;> simp [hno, countEnds_keyword_cmd]
    -- caption
    · rename_i htype
      split at h
      · exact Except.noConfusion h
      rename_i textNode hc0
      split at h
      · exact Except.noConfusion h
      rename_i tevs c1 ht
      cases h
      have ht' := ih _ _ _ _ ht
      rw [endCountT_child0 fuel n (Or.inl htype), getChildE_ok hc0]
      cases hno : opts.noEnd <;>
        simp [hno, isEndKw_append_space] at ht' ⊢ <;> omega
    -- comment
    · rename_i htype
      split at h
      · exact Except.noConfusion h
      rename_i textNode hc0
      split at h
      · exact Except.noConfusion h
      rename_i tevs c1 ht
      cases h
      have ht' := ih _ _ _ _ ht
      rw [endCountT_child0 fuel n (Or.inr (Or.inl htype)), getChildE_ok hc0]
      cases hno : opts.noEnd <;> simp [hno] at ht' ⊢ <;> omega
    -- statement
    · rename_i htype
      split at h
      · exact Except.noConfusion h
      rename_i textNode hc0
      split at h
      · exact Except.noConfusion h
      rename_i tevs c1 ht
      cases h
      have ht' := ih _ _ _ _ ht
      rw [endCountT_child0 fuel n (Or.inr (Or.inr htype)), getChildE_ok hc0]
      cases hno : opts.noEnd <;>
        simp [hno, countEnds_keyword_stmt] at ht' ⊢ <;> omega
    -- open-text
    · rename_i htype
      cases h
      rw [endCountT_zero fuel n (Or.inr (Or.inl htype))]
      cases hno : opts.noEnd <;> simp [hno]
    -- close-text
    · rename_i htype
      cases h
      rw [endCountT_zero fuel n (Or.inr (Or.inr htype))]
      cases hno : opts.noEnd <;> simp [hno]
    -- default
    · exact Except.noConfusion h


/-! ## The caption counter (claim C1) -/

theorem containsAlg_mono : ∀ (k m : Nat) (n : PNode), m ≤ k →
    containsAlg k n = false → containsAlg m n = false := by
  intro k
  induction k with
  | zero =>
    intro m n hm h
    have hm0 : m = 0 := Nat.le_zero.mp hm
    rw [hm0]
    rfl
  | succ k ih =>
    intro m n hm h
    cases m with
    | zero => rfl
    | succ m =>
      rw [containsAlg] at h ⊢
      simp only [Bool.or_eq_false_iff, List.any_eq_false] at h ⊢
      exact ⟨h.1, fun c hc => by
        simpa using ih m c (Nat.le_of_succ_le_succ hm) (by simpa using h.2 c hc)⟩

theorem containsAlg_succ_false {k : Nat} {n : PNode}
    (h : containsAlg (k + 1) n = false) :
    (n.type == "algorithm") = false ∧ ∀ c ∈ n.childrenD, containsAlg k c = false := by
  rw [containsAlg] at h
  simp only [Bool.or_eq_false_iff, List.any_eq_false] at h
  exact ⟨h.1, fun c hc => by simpa using h.2 c hc⟩

theorem withChildren_type (n : PNode) (cs : List PNode) :
    (n.withChildren cs).type = n.type := by cases n; rfl

theorem withChildren_childrenD (n : PNode) (cs : List PNode) :
    (n.withChildren cs).childrenD = cs := by cases n; rfl

/-- Freedom from `algorithm` nodes survives replacing the children by a
subset of them. -/
theorem containsAlg_withChildren {k : Nat} {blk : PNode}
    (h : containsAlg (k + 1) blk = false) (rest : List PNode)
    (hsub : ∀ c ∈ rest, c ∈ blk.childrenD) :
    containsAlg k (blk.withChildren rest) = false := by
  cases k with
  | zero => rfl
  | succ k =>
    have h2 := containsAlg_succ_false h
    rw [containsAlg]
    simp only [withChildren_type, withChildren_childrenD, Bool.or_eq_false_iff,
      List.any_eq_false]
    exact ⟨h2.1, fun c hc => by
      simpa using containsAlg_mono (k + 1) k c (Nat.le_succ k) (h2.2 c (hsub c hc))⟩

/-- `_buildTreeForAllChildren` leaves the counter unchanged when each
child does. -/
theorem renderList_cnt (r : PNode → Nat → Except RErr (List Event × Nat)) :
    ∀ (ns : List PNode) (cnt : Nat) (evs : List Event) (cnt' : Nat),
      (∀ c ∈ ns, ∀ (c0 : Nat) (evs0 : List Event) (c1 : Nat),
        r c c0 = .ok (evs0, c1) → c1 = c0) →
      renderList r ns cnt = .ok (evs, cnt') → cnt' = cnt := by
  intro ns
  induction ns with
  | nil =>
    intro cnt evs cnt' _ h
    simp only [renderList] at h
    cases h
    rfl
  | cons n ns ih =>
    intro cnt evs cnt' hr h
    simp only [renderList] at h
    split at h
    · exact Except.noConfusion h
    rename_i evs1 c1 h1
    split at h
    · exact Except.noConfusion h
    rename_i evs2 c2 h2
    cases h
    have e1 := hr n (List.mem_cons_self n ns) _ _ _ h1
    have e2 := ih _ _ _ (fun c hc => hr c (List.mem_cons_of_mem n hc)) h2
    omega

/-- Comment hoisting leaves the counter unchanged when the pieces do. -/
theorem hoistRender_cnt (r : PNode → Nat → Except RErr (List Event × Nat))
    (blk : PNode) (cnt : Nat) (evs : List Event) (cnt' : Nat)
    (hr : ∀ c ∈ blk.childrenD, ∀ (c0 : Nat) (evs0 : List Event) (c1 : Nat),
      r c c0 = .ok (evs0, c1) → c1 = c0)
    (hw : ∀ (c0 : Nat) (evs0 : List Event) (c1 : Nat),
      r (blk.withChildren (blk.childrenD.dropWhile (fun x => x.type == "comment"))) c0
        = .ok (evs0, c1) → c1 = c0)
    (h : hoistRender r blk cnt = .ok (evs, cnt')) : cnt' = cnt := by
  simp only [hoistRender] at h
  split at h
  · exact Except.noConfusion h
  rename_i cs hcs
  split at h
  · exact Except.noConfusion h
  rename_i evs1 c1 h1
  split at h
  · exact Except.noConfusion h
  rename_i evs2 c2 h2
  cases h
  have hcd := childrenE_ok hcs
  rw [hcd] at hr hw
  have e1 := renderList_cnt r _ _ _ _
    (fun c hc => hr c ((List.takeWhile_sublist _).subset hc)) h1
  have e2 := hw _ _ _ h2
  omega

/-- The elif loop leaves the counter unchanged when the pieces do. -/
theorem renderElifs_cnt (r hoist : PNode → Nat → Except RErr (List Event × Nat))
    (children : List PNode)
    (hr : ∀ c ∈ children, ∀ (c0 : Nat) (evs0 : List Event) (c1 : Nat),
      r c c0 = .ok (evs0, c1) → c1 = c0)
    (hh : ∀ c ∈ children, ∀ (c0 : Nat) (evs0 : List Event) (c1 : Nat),
      hoist c c0 = .ok (evs0, c1) → c1 = c0) :
    ∀ (k ei cnt : Nat) (evs : List Event) (cnt' : Nat),
      renderElifs r hoist children k ei cnt = .ok (evs, cnt') → cnt' = cnt := by
  intro k
  induction k with
  | zero =>
    intro ei cnt evs cnt' h
    simp only [renderElifs] at h
    cases h
    rfl
  | succ k ih =>
    intro ei cnt evs cnt' h
    simp only [renderElifs] at h
    split at h
    · exact Except.noConfusion h
    rename_i cond hcond
    split at h
    · exact Except.noConfusion h
    rename_i ce cnt1 hce
    split at h
    · exact Except.noConfusion h
    rename_i blk hblk
    split at h
    · exact Except.noConfusion h
    rename_i be cnt2 hbe
    split at h
    · exact Except.noConfusion h
    rename_i re cnt3 hre
    cases h
    have e1 := hr cond (List.get?_mem hcond) _ _ _ hce
    have e2 := hh blk (List.get?_mem hblk) _ _ _ hbe
    have e3 := ih _ _ _ _ hre
    omega


set_option maxHeartbeats 1000000 in
/-- A `_buildTree` run over a tree with no `algorithm` node below the root
leaves the caption counter unchanged (`2 * fuel` bounds the depth the
traversal can explore with `fuel` steps, two levels per step through the
comment-hoisting path). -/
theorem buildTree_cnt_free (opts : RendOpts) :
    ∀ (fuel : Nat) (n : PNode) (cnt : Nat) (evs : List Event) (cnt' : Nat),
      containsAlg (2 * fuel) n = false →
      buildTree opts fuel n cnt = .ok (evs, cnt') → cnt' = cnt := by
  intro fuel
  induction fuel with
  | zero => intro n cnt evs cnt' _ h; exact Except.noConfusion h
  | succ fuel ih =>
    intro n cnt evs cnt' hfree h
    have hfree2 : containsAlg (2 * fuel + 1 + 1) n = false := by
      rw [show 2 * fuel + 1 + 1 = 2 * (fuel + 1) by omega]
      exact hfree
    have hch : ∀ c ∈ n.childrenD, containsAlg (2 * fuel + 1) c = false :=
      (containsAlg_succ_false hfree2).2
    have hr : ∀ c ∈ n.childrenD, ∀ (c0 : Nat) (evs0 : List Event) (c1 : Nat),
        buildTree opts fuel c c0 = .ok (evs0, c1) → c1 = c0 :=
      fun c hc c0 evs0 c1 hb =>
        ih c c0 evs0 c1 (containsAlg_mono _ _ _ (by omega) (hch c hc)) hb
    have hhoist : ∀ c ∈ n.childrenD, ∀ (c0 : Nat) (evs0 : List Event) (c1 : Nat),
        hoistRender (buildTree opts fuel) c c0 = .ok (evs0, c1) → c1 = c0 := by
      intro c hc c0 evs0 c1 hb
      have hcfree := hch c hc
      refine hoistRender_cnt (buildTree opts fuel) c c0 evs0 c1 ?_ ?_ hb
      · intro d hd d0 devs d1 hdb
        exact ih d d0 devs d1 ((containsAlg_succ_false hcfree).2 d hd) hdb
      · intro c0h evs0h c1h hbh
        exact ih _ _ _ _
          (containsAlg_withChildren hcfree _
            (fun d hd => (List.dropWhile_sublist _).subset hd)) hbh
    simp only [buildTree] at h
    split at h
    -- root
    · split at h
      · exact Except.noConfusion h
      rename_i cs hcs
      split at h
      · exact Except.noConfusion h
      rename_i evs1 c1 h1
      cases h
      have hcd := childrenE_ok hcs
      rw [hcd] at hr
      exact renderList_cnt _ _ _ _ _ hr h1
    -- algorithm: contradicts freedom
    · rename_i htype
      have hcfa := (containsAlg_succ_false hfree2).1
      rw [htype] at hcfa
      simp at hcfa
    -- algorithmic
    · split at h
      · exact Except.noConfusion h
      rename_i cs hcs
      split at h
      · exact Except.noConfusion h
      rename_i evs1 c1 h1
      cases h
      have hcd := childrenE_ok hcs
      rw [hcd] at hr
      exact renderList_cnt _ _ _ _ _ hr h1
    -- block
    · split at h
      · exact Except.noConfusion h
      rename_i cs hcs
      split at h
      · exact Except.noConfusion h
      rename_i evs1 c1 h1
      cases h
      have hcd := childrenE_ok hcs
      rw [hcd] at hr
      exact renderList_cnt _ _ _ _ _ hr h1
    -- function
    · split at h
      · rename_i ftype fname heqv
        split at h
        · exact Except.noConfusion h
        rename_i textNode hc0
        split at h
        · exact Except.noConfusion h
        rename_i blockNode hc1
        split at h
        · exact Except.noConfusion h
        rename_i tevs c1 ht
        split at h
        · exact Except.noConfusion h
        rename_i bevs c2 hb
        cases h
        have e1 := hr textNode (List.get?_mem (getChildE_ok hc0)) _ _ _ ht
        have e2 := hhoist blockNode (List.get?_mem (getChildE_ok hc1)) _ _ _ hb
        omega
      · exact Except.noConfusion h
    -- if
    · split at h
      · exact Except.noConfusion h
      rename_i v hvne
      split at h
      · exact Except.noConfusion h
      rename_i ifCond hc0
      split at h
      · exact Except.noConfusion h
      rename_i cevs c1 hcv
      split at h
      · exact Except.noConfusion h
      rename_i ifBlock hc1
      split at h
      · exact Except.noConfusion h
      rename_i bevs c2 hbv
      split at h
      · exact Except.noConfusion h
      rename_i eevs c3 hev
      split at h
      · exact Except.noConfusion h
      rename_i elevs c4 helse
      cases h
      have e1 := hr ifCond (List.get?_mem (getChildE_ok hc0)) _ _ _ hcv
      have e2 := hhoist ifBlock (List.get?_mem (getChildE_ok hc1)) _ _ _ hbv
      have e3 := renderElifs_cnt _ _ _ hr hhoist _ _ _ _ _ hev
      split at helse
      · split at helse
        · exact Except.noConfusion helse
        rename_i elseBlock hlastE
        split at helse
        · exact Except.noConfusion helse
        rename_i evsE cE hhel
        cases helse
        have e4 := hhoist elseBlock (List.mem_of_getLast?_eq_some hlastE) _ _ _ hhel
        omega
      · cases helse
        omega
    -- loop
    · split at h
      · exact Except.noConfusion h
      rename_i loopCond hc0
      split at h
      · exact Except.noConfusion h
      rename_i cevs c1 hcv
      split at h
      · exact Except.noConfusion h
      rename_i blockN hc1
      split at h
      · exact Except.noConfusion h
      rename_i bevs c2 hb
      cases h
      have e1 := hr loopCond (List.get?_mem (getChildE_ok hc0)) _ _ _ hcv
      have e2 := hhoist blockN (List.get?_mem (getChildE_ok hc1)) _ _ _ hb
      omega
    -- repeat
    · split at h
      · exact Except.noConfusion h
      rename_i repeatBlock hc0
      split at h
      · exact Except.noConfusion h
      rename_i bevs c1 hb
      split at h
      · exact Except.noConfusion h
      rename_i repeatCond hc1
      split at h
      · exact Except.noConfusion h
      rename_i cevs c2 hcv
      cases h
      have e1 := hhoist repeatBlock (List.get?_mem (getChildE_ok hc0)) _ _ _ hb
      have e2 := hr repeatCond (List.get?_mem (getChildE_ok hc1)) _ _ _ hcv
      omega
    -- upon
    · split at h
      · exact Except.noConfusion h
      rename_i uponCond hc0
      split at h
      · exact Except.noConfusion h
      rename_i cevs c1 hcv
      split at h
      · exact Except.noConfusion h
      rename_i uponBlock hc1
      split at h
      · exact Except.noConfusion h
      rename_i bevs c2 hb
      cases h
      have e1 := hr uponCond (List.get?_mem (getChildE_ok hc0)) _ _ _ hcv
      have e2 := hhoist uponBlock (List.get?_mem (getChildE_ok hc1)) _ _ _ hb
      omega
    -- command
    · cases h
      rfl
    -- caption
    · split at h
      · exact Except.noConfusion h
      rename_i textNode hc0
      split at h
      · exact Except.noConfusion h
      rename_i tevs c1 ht
      cases h
      exact hr textNode (List.get?_mem (getChildE_ok hc0)) _ _ _ ht
    -- comment
    · split at h
      · exact Except.noConfusion h
      rename_i textNode hc0
      split at h
      · exact Except.noConfusion h
      rename_i tevs c1 ht
      cases h
      exact hr textNode (List.get?_mem (getChildE_ok hc0)) _ _ _ ht
    -- statement
    · split at h
      · exact Except.noConfusion h
      rename_i textNode hc0
      split at h
      · exact Except.noConfusion h
      rename_i tevs c1 ht
      cases h
      exact hr textNode (List.get?_mem (getChildE_ok hc0)) _ _ _ ht
    -- open-text
    · cases h
      rfl
    -- close-text
    · cases h
      rfl
    -- default
    · exact Except.noConfusion h


/-- The `algorithm` case of `_buildTree`, as an equation. -/
theorem buildTree_algorithm_eq (opts : RendOpts) (fuel : Nat) (n : PNode)
    (cnt : Nat) (h : n.type = "algorithm") :
    buildTree opts (fuel + 1) n cnt =
      (match childrenE n with
       | Except.error e => Except.error e
       | Except.ok cs =>
         match (match (cs.filter (fun (c : PNode) => c.type == "caption")).getLast? with
                | some lastC =>
                  (match buildTree opts fuel lastC
                      (cnt + (cs.filter (fun (c : PNode) => c.type == "caption")).length) with
                   | Except.error e => Except.error e
                   | Except.ok (evs, c) =>
                     Except.ok ([Event.groupBegin "algorithm" "with-caption"] ++ evs, c))
                | none => (Except.ok ([Event.groupBegin "algorithm" ""],
                    cnt + (cs.filter (fun (c : PNode) => c.type == "caption")).length) :
                      Except RErr (List Event × Nat))) with
         | Except.error e => Except.error e
         | Except.ok (hevs, cnt2) =>
           match renderList (buildTree opts fuel)
               (cs.filter (fun (c : PNode) => c.type != "caption")) cnt2 with
           | Except.error e => Except.error e
           | Except.ok (evs, cnt3) => Except.ok (hevs ++ evs ++ [Event.groupEnd], cnt3)) := by
  rw [buildTree, h]
  rfl

/-- **C1** (amended): rendering an `algorithm` environment advances the
shared caption counter once per caption child — by the number of captions,
not by one — and not at all when there is no caption; the children may not
themselves contain nested `algorithm` nodes (the depth bound `2 * fuel`
covers everything the traversal can reach). -/
theorem claim_C1 (opts : RendOpts) (fuel : Nat) (n : PNode) (cnt : Nat)
    (evs : List Event) (cnt' : Nat)
    (htype : n.type = "algorithm")
    (hfree : ∀ c ∈ n.childrenD, containsAlg (2 * fuel) c = false)
    (h : buildTree opts (fuel + 1) n cnt = .ok (evs, cnt')) :
    cnt' = cnt + (n.childrenD.filter (fun c => c.type == "caption")).length := by
  rw [buildTree_algorithm_eq opts fuel n cnt htype] at h
  split at h
  · exact Except.noConfusion h
  rename_i cs hcs
  split at h
  · exact Except.noConfusion h
  rename_i hevs cnt2 hheader
  split at h
  · exact Except.noConfusion h
  rename_i evs2 c3 h2
  cases h
  have hcd := childrenE_ok hcs
  rw [hcd] at hfree ⊢
  have hlistp := renderList_cnt (buildTree opts fuel) _ _ _ _
    (fun c hc c0 evs0 c1 hb =>
      buildTree_cnt_free opts fuel c c0 evs0 c1
        (hfree c (List.mem_of_mem_filter hc)) hb) h2
  split at hheader
  · rename_i lastC hlast
    split at hheader
    · exact Except.noConfusion hheader
    rename_i evsc cc hcap
    cases hheader
    have hcapp := buildTree_cnt_free opts fuel lastC _ _ _
      (hfree lastC (List.mem_of_mem_filter (List.mem_of_getLast?_eq_some hlast)))
      hcap
    omega
  · rename_i hlast
    cases hheader
    omega


/-- Witness for C1 at concrete algorithm nodes: one caption advances the
counter from 0 to 1, zero captions leave it at 5. -/
theorem claim_C1_witness :
    (1 : Nat) = 0 + (c1wAlg.childrenD.filter (fun c => c.type == "caption")).length ∧
    (5 : Nat) = 5 + (c1wAlg0.childrenD.filter (fun c => c.type == "caption")).length :=
  ⟨claim_C1 {} 3 c1wAlg 0
     [Event.groupBegin "algorithm" "with-caption", Event.newLine,
      Event.keyword "Algorithm 1 ", Event.textChunk c1wText, Event.groupEnd] 1
     rfl (by decide) rfl,
   claim_C1 {} 3 c1wAlg0 5
     [Event.groupBegin "algorithm" "", Event.newLine, Event.textChunk c1wText,
      Event.groupEnd] 5
     rfl (by decide) rfl⟩

set_option maxRecDepth 4096 in
/-- **C2.** The number of emitted "end" lines of a successful `_buildTree`
run is `0` when the suppress-end option is set, and otherwise the
structural count `endCountT`, which adds exactly one per `if`, `loop` and
`upon` node, one per `function` node whose lower-cased kind has a closing
keyword, and zero per `repeat` node (whose closing line is the
`until <cond>` line); on a nested valid input with a procedure, an if, a
for-all loop, an upon and a repeat, rendering emits 4 end lines by
default and 0 with the option set, while the `until ` line survives. -/
theorem claim_C2 :
    (∀ (opts : RendOpts) (fuel : Nat) (n : PNode) (cnt : Nat) (evs : List Event)
        (cnt' : Nat),
      buildTree opts fuel n cnt = .ok (evs, cnt') →
      countEnds evs = if opts.noEnd then 0 else endCountT fuel n)
    ∧ isOkParse (parseInput 64 c2input) = true
    ∧ countEnds (okEvs (renderTree {} 64 (okNode (parseInput 64 c2input)))) = 4
    ∧ countEnds (okEvs (renderTree { noEnd := true } 64
        (okNode (parseInput 64 c2input)))) = 0
    ∧ ((okEvs (renderTree { noEnd := true } 64
        (okNode (parseInput 64 c2input)))).map evTag).contains "kw:until " = true := by
  refine ⟨countEnds_buildTree, ?_, ?_, ?_, ?_⟩ <;> rfl

set_option maxRecDepth 4096 in
/-- Witness for C2: the counting equation applied to the concrete nested
run (its `noEnd` option is unset, so the count is `endCountT`). -/
theorem claim_C2_witness :
    countEnds (okEvs (renderTree {} 64 (okNode (parseInput 64 c2input)))) =
      endCountT 64 (okNode (parseInput 64 c2input)) := by
  have h := claim_C2.1 {} 64 (okNode (parseInput 64 c2input)) 0
    (okEvs (renderTree {} 64 (okNode (parseInput 64 c2input)))) 0 (by rfl)
  simpa using h


/-! ## Hoisting of leading block comments (claim C5) -/

/-- A successful `_buildCommentsFromBlock` + `_buildTree(blockNode)` pair
splits into: render the leading `comment` children first, then render the
block with those comments removed. -/
theorem hoistRender_ok_split (r : PNode → Nat → Except RErr (List Event × Nat))
    (blk : PNode) (c : Nat) (evs : List Event) (c' : Nat)
    (h : hoistRender r blk c = .ok (evs, c')) :
    ∃ (evs1 evs2 : List Event) (c1 : Nat),
      renderList r (blk.childrenD.takeWhile (fun x => x.type == "comment")) c
        = .ok (evs1, c1) ∧
      r (blk.withChildren (blk.childrenD.dropWhile (fun x => x.type == "comment"))) c1
        = .ok (evs2, c') ∧
      evs = evs1 ++ evs2 := by
  simp only [hoistRender] at h
  split at h
  · exact Except.noConfusion h
  rename_i cs hcs
  split at h
  · exact Except.noConfusion h
  rename_i evs1 c1 h1
  split at h
  · exact Except.noConfusion h
  rename_i evs2 c2 h2
  cases h
  rw [childrenE_ok hcs]
  exact ⟨evs1, evs2, c1, h1, h2, rfl⟩

set_option maxRecDepth 4096 in
/-- **C5.** Leading `comment` children of a construct block are removed
from the block and rendered before it (general split of the
comments-from-block pass), and concretely the comment events attach to the
construct's header line, before the `begin-block` of the indented body,
for every construct kind: if (and each elif/else branch independently),
for-all loop, repeat, upon and procedure. -/
theorem claim_C5 :
    (∀ (r : PNode → Nat → Except RErr (List Event × Nat)) (blk : PNode)
        (c : Nat) (evs : List Event) (c' : Nat),
      hoistRender r blk c = .ok (evs, c') →
      ∃ (evs1 evs2 : List Event) (c1 : Nat),
        renderList r (blk.childrenD.takeWhile (fun x => x.type == "comment")) c
          = .ok (evs1, c1) ∧
        r (blk.withChildren (blk.childrenD.dropWhile (fun x => x.type == "comment")))
            c1 = .ok (evs2, c') ∧
        evs = evs1 ++ evs2)
    ∧ c5tags c5ifInput =
      ["begin-root", "begin-algorithmic", "begin-block", "line", "kw:if ", "chunk",
       "kw: then", "comment-begin", "text: // ", "chunk", "comment-end",
       "begin-block", "line", "chunk", "end-group", "line", "kw:end if",
       "end-group", "end-group", "end-group"]
    ∧ c5tags c5branches =
      ["begin-root", "begin-algorithmic", "begin-block", "line", "kw:if ", "chunk",
       "kw: then", "comment-begin", "text: // ", "chunk", "comment-end",
       "begin-block", "line", "chunk", "end-group", "line", "kw:else if ", "chunk",
       "kw: then", "comment-begin", "text: // ", "chunk", "comment-end",
       "begin-block", "line", "chunk", "end-group", "line", "kw:else",
       "comment-begin", "text: // ", "chunk", "comment-end", "begin-block", "line",
       "chunk", "end-group", "line", "kw:end if", "end-group", "end-group",
       "end-group"]
    ∧ c5tags c5loopInput =
      ["begin-root", "begin-algorithmic", "begin-block", "line", "kw:for all ",
       "chunk", "kw: do", "comment-begin", "text: // ", "chunk", "comment-end",
       "begin-block", "line", "chunk", "end-group", "line", "kw:end for",
       "end-group", "end-group", "end-group"]
    ∧ c5tags c5repInput =
      ["begin-root", "begin-algorithmic", "begin-block", "line", "kw:repeat",
       "comment-begin", "text: // ", "chunk", "comment-end", "begin-block", "line",
       "chunk", "end-group", "line", "kw:until ", "chunk", "end-group", "end-group",
       "end-group"]
    ∧ c5tags c5uponInput =
      ["begin-root", "begin-algorithmic", "begin-block", "line", "kw:upon ",
       "chunk", "comment-begin", "text: // ", "chunk", "comment-end", "begin-block",
       "line", "chunk", "end-group", "line", "kw:end upon", "end-group",
       "end-group", "end-group"]
    ∧ c5tags c5funcInput =
      ["begin-root", "begin-algorithmic", "begin-block", "line", "kw:procedure ",
       "name:P", "text:(", "chunk", "text:)", "comment-begin", "text: // ", "chunk",
       "comment-end", "begin-block", "line", "chunk", "end-group", "line",
       "kw:end procedure", "end-group", "end-group", "end-group"] := by
  refine ⟨hoistRender_ok_split, ?_, ?_, ?_, ?_, ?_, ?_⟩ <;> rfl

/-- Witness for C5: the hoisting split applied to a concrete block whose
first child is a comment. -/
theorem claim_C5_witness :
    ∃ (evs1 evs2 : List Event) (c1 : Nat),
      renderList (buildTree {} 8)
        (c5wBlk.childrenD.takeWhile (fun x => x.type == "comment")) 0
        = .ok (evs1, c1) ∧
      buildTree {} 8 (c5wBlk.withChildren
          (c5wBlk.childrenD.dropWhile (fun x => x.type == "comment"))) c1
        = .ok (evs2, 0) ∧
      [Event.commentBegin, Event.rawText " // ", Event.textChunk c1wText,
       Event.commentEnd, Event.groupBegin "block" "", Event.newLine,
       Event.textChunk c1wText, Event.groupEnd] = evs1 ++ evs2 :=
  claim_C5.1 (buildTree {} 8) c5wBlk 0
    [Event.commentBegin, Event.rawText " // ", Event.textChunk c1wText,
     Event.commentEnd, Event.groupBegin "block" "", Event.newLine,
     Event.textChunk c1wText, Event.groupEnd] 0 rfl

end PseudocodeJS
